import Mathlib

/-!
Verification of the ETR daily-projection engine.

Shallow embedding of the calibration and redistribution code:
  * `src/daily_api.py` — persistent history, recency weights, player EMA,
    opponent multipliers, blended latest projections, upload route;
  * `src/etr_add_daily.py` — the parquet master merge;
  * `src/app.py` — `blend_with_etr_rates`, `calculate_assist_redistribution`,
    `_fallback_assist_redistribution`, `calculate_usage_adjustments`.

Modelling conventions:
  * Python floats are modelled as real numbers (`ℝ`); a pandas `NaN` /
    missing cell is `Option.none`, and arithmetic on possibly-missing
    values propagates `none` exactly as pandas propagates `NaN`.
  * Dates are integers (day numbers); the ISO `YYYY-MM-DD` strings the code
    sorts are ordered exactly like their day numbers.
  * Player / team / opponent identifiers are atoms with a linear order
    (`ℤ`); the code only ever compares them for equality and sorts by them.
  * pandas `sort_values` on a list of columns uses a stable lexicographic
    sort (`numpy.lexsort`); it is modelled by a stable insertion sort on
    the same key.  `drop_duplicates(keep="last")` keeps the last occurrence
    of each key, in order.
  * DataFrame column names are Lean `String`s where the code's behaviour
    depends on them (the merge-suffix renaming in
    `_rebuild_latest_projections` and the alias table of
    `_canonicalize_cols`).
-/

namespace ETR

/-! ### Recency weighting (`daily_api._exponential_weights`) -/

/-- Constant `EMA_HALFLIFE = 10` from `daily_api.py`. -/
def EMA_HALFLIFE : ℝ := 10

/-- pandas `Series.rank(method="dense")` of a date inside a date column:
1 + the number of distinct strictly smaller values, i.e. the number of
distinct values `≤ d`. -/
def denseRank (dates : List ℤ) (d : ℤ) : ℕ :=
  (dates.dedup.filter (fun x => decide (x ≤ d))).length

/-- Value of `ranks.max()` over the column. -/
def maxRank (dates : List ℤ) : ℕ :=
  (dates.map (denseRank dates)).foldl max 0

/-- The unnormalized decay `0.5 ** ((maxr - rank) / halflife)` of one row
(`daily_api.py` line 100). -/
noncomputable def decayOf (hl : ℝ) (dates : List ℤ) (d : ℤ) : ℝ :=
  (1 / 2 : ℝ) ^ (((maxRank dates : ℝ) - (denseRank dates d : ℝ)) / hl)

/-- Function `_exponential_weights`: each row's decay divided by the column sum. -/
noncomputable def expWeights (hl : ℝ) (dates : List ℤ) : List ℝ :=
  (dates.map (decayOf hl dates)).map
    (fun x => x / (dates.map (decayOf hl dates)).sum)

theorem sum_map_div (l : List ℝ) (c : ℝ) :
    (l.map (fun x => x / c)).sum = l.sum / c := by
  simp [div_eq_mul_inv, List.sum_map_mul_right]

theorem foldl_max_one_replicate : ∀ k : ℕ, List.foldl max 1 (List.replicate k 1) = 1 := by
  intro k
  induction k with
  | zero => rfl
  | succ n ih => simpa [List.replicate_succ] using ih

theorem decayOf_pos (hl : ℝ) (dates : List ℤ) (d : ℤ) : 0 < decayOf hl dates d :=
  Real.rpow_pos_of_pos (by norm_num) _

theorem decays_sum_pos (hl : ℝ) (dates : List ℤ) (hne : dates ≠ []) :
    0 < (dates.map (decayOf hl dates)).sum := by
  apply List.sum_pos
  · intro x hx
    rcases List.mem_map.mp hx with ⟨d, _, rfl⟩
    exact decayOf_pos hl dates d
  · simpa using hne

theorem zip_map_snd {α β : Type*} (f : α → β) (l : List α) :
    ∀ p ∈ l.zip (l.map f), p.2 = f p.1 := by
  induction l with
  | nil => intro p hp; simp at hp
  | cons a t ih =>
    intro p hp
    rcases List.mem_cons.mp hp with hp | hp
    · simp [hp]
    · exact ih _ hp

theorem dedup_of_all_eq {α : Type*} [DecidableEq α] (a : α) :
    ∀ (l : List α), l ≠ [] → (∀ x ∈ l, x = a) → l.dedup = [a] := by
  intro l
  induction l with
  | nil => intro h; exact absurd rfl h
  | cons b t ih =>
    intro _ hall
    have hb : b = a := hall b (by simp)
    subst hb
    cases t with
    | nil => simp
    | cons c t' =>
      have hct : List.dedup (c :: t') = [b] := by
        apply ih (by simp)
        intro x hx; exact hall x (List.mem_cons_of_mem _ hx)
      have hmem : b ∈ c :: t' := by
        have : c = b := hall c (by simp)
        simp [this]
      rw [List.dedup_cons_of_mem hmem, hct]

/-- Claim C7. For every non-empty date column and positive halflife:
the recency weights sum to 1; each row's weight is its unnormalized decay
`0.5 ^ ((max dense rank − its dense rank) / halflife)` divided by the
decay sum (so rows sharing a date share that magnitude, and equal-date
rows get equal weights); and a column of identical dates yields the
uniform weights `1/n` with no division by zero. -/
theorem exponential_weights_spec (hl : ℝ) (dates : List ℤ)
    (hne : dates ≠ []) (hhl : 0 < hl) :
    (expWeights hl dates).sum = 1 ∧
    (∀ p ∈ dates.zip (expWeights hl dates),
        p.2 = decayOf hl dates p.1 / (dates.map (decayOf hl dates)).sum) ∧
    (∀ p ∈ dates.zip (expWeights hl dates), ∀ q ∈ dates.zip (expWeights hl dates),
        p.1 = q.1 → p.2 = q.2) ∧
    (∀ a : ℤ, (∀ x ∈ dates, x = a) →
        expWeights hl dates = List.replicate dates.length (1 / (dates.length : ℝ))) := by
  have hS : 0 < (dates.map (decayOf hl dates)).sum := decays_sum_pos hl dates hne
  have hform : ∀ p ∈ dates.zip (expWeights hl dates),
      p.2 = decayOf hl dates p.1 / (dates.map (decayOf hl dates)).sum := by
    intro p hp
    have heq : expWeights hl dates
        = dates.map (fun d => decayOf hl dates d / (dates.map (decayOf hl dates)).sum) := by
      unfold expWeights
      rw [List.map_map]
      rfl
    rw [heq] at hp
    exact zip_map_snd _ _ p hp
  refine ⟨?_, hform, ?_, ?_⟩
  · unfold expWeights
    rw [sum_map_div, div_self (ne_of_gt hS)]
  · intro p hp q hq hpq
    rw [hform p hp, hform q hq, hpq]
  · intro a hall
    have hdedup : dates.dedup = [a] := dedup_of_all_eq a dates hne hall
    have hrank : ∀ d ∈ dates, denseRank dates d = 1 := by
      intro d hd
      have : d = a := hall d hd
      subst this
      simp [denseRank, hdedup]
    have hranks : dates.map (denseRank dates) = List.replicate dates.length 1 := by
      have h := List.eq_replicate_of_mem (a := 1) (l := dates.map (denseRank dates)) ?_
      · rwa [List.length_map] at h
      · intro x hx
        rcases List.mem_map.mp hx with ⟨d, hd, rfl⟩
        exact hrank d hd
    have hmaxr : maxRank dates = 1 := by
      unfold maxRank
      rw [hranks]
      rcases dates with _ | ⟨b, t⟩
      · exact absurd rfl hne
      · have := foldl_max_one_replicate t.length
        simpa [List.replicate_succ] using this
    have hdecay : ∀ d ∈ dates, decayOf hl dates d = 1 := by
      intro d hd
      unfold decayOf
      rw [hmaxr, hrank d hd]
      norm_num
    have hdecays : dates.map (decayOf hl dates) = List.replicate dates.length 1 := by
      have h := List.eq_replicate_of_mem (a := (1:ℝ)) (l := dates.map (decayOf hl dates)) ?_
      · rwa [List.length_map] at h
      · intro x hx
        rcases List.mem_map.mp hx with ⟨d, hd, rfl⟩
        exact hdecay d hd
    unfold expWeights
    rw [hdecays]
    simp [List.map_replicate, List.sum_replicate, one_div]

/-- Witness for C7 at `dates = [5, 5]`, `halflife = 10` (repeated identical
dates; the all-equal clause applies with `n = 2`). -/
theorem exponential_weights_spec_witness :
    (expWeights 10 [5, 5]).sum = 1 ∧
    expWeights 10 [5, 5] = List.replicate 2 (1 / (2 : ℝ)) := by
  have h := exponential_weights_spec 10 [5, 5] (by simp) (by norm_num)
  refine ⟨h.1, ?_⟩
  have h4 := h.2.2.2 5 (by intro x hx; simp at hx; exact hx)
  simpa using h4

/-! ### History rows and the merge pipeline
(`daily_api._append_history`, `etr_add_daily.main`) -/

/-- The eight canonical stat columns (`STAT_COLS` in `daily_api.py`).
`tov` is the `TO` column, `tpm` the `3PM` column. -/
inductive Stat
  | pts | reb | ast | tpm | stl | blk | tov | pra
deriving DecidableEq

def statCols : List Stat := [.pts, .reb, .ast, .tpm, .stl, .blk, .tov, .pra]

/-- One history row: `Date, Player, Team, Opp, Minutes` plus the stat
columns, any of which may be missing (`NaN`). -/
structure HRow where
  date : ℤ
  player : ℤ
  team : ℤ
  opp : ℤ
  minutes : Option ℝ
  stat : Stat → Option ℝ

/-- Stable insertion of `a` before the first element whose key is not
smaller — together with `sortByKey` this models pandas' stable
multi-column `sort_values`. -/
def keyInsert {α : Type*} {κ : Type*} [LinearOrder κ] (key : α → κ) (a : α) :
    List α → List α
  | [] => [a]
  | b :: l => if key a ≤ key b then a :: b :: l else b :: keyInsert key a l

/-- Stable sort by key. -/
def sortByKey {α : Type*} {κ : Type*} [LinearOrder κ] (key : α → κ) (l : List α) :
    List α :=
  l.foldr (keyInsert key) []

/-- Model of `drop_duplicates(subset=key, keep="last")`: keep a row iff no later row
shares its key. -/
def dedupKeepLast {α : Type*} {κ : Type*} [LinearOrder κ] (key : α → κ) :
    List α → List α
  | [] => []
  | a :: l =>
    if l.any (fun b => decide (key b = key a)) then dedupKeepLast key l
    else a :: dedupKeepLast key l

theorem keyInsert_cons {α : Type*} {κ : Type*} [LinearOrder κ] (key : α → κ)
    (a b : α) (t : List α) :
    keyInsert key a (b :: t)
      = if key a ≤ key b then a :: b :: t else b :: keyInsert key a t := rfl

theorem keyInsert_filter {α : Type*} {κ : Type*} [LinearOrder κ] (key : α → κ)
    (k : κ) (a : α) (l : List α) :
    (keyInsert key a l).filter (fun r => decide (key r = k))
      = (a :: l).filter (fun r => decide (key r = k)) := by
  induction l with
  | nil => rfl
  | cons b t ih =>
    rw [keyInsert_cons]
    by_cases hab : key a ≤ key b
    · rw [if_pos hab]
    · rw [if_neg hab]
      have hne : key a ≠ key b := fun h => hab (le_of_eq h)
      by_cases hak : key a = k <;> by_cases hbk : key b = k
      · exact absurd (hak.trans hbk.symm) hne
      · simp [List.filter_cons, ih, hak, hbk]
      · simp [List.filter_cons, ih, hak, hbk]
      · simp [List.filter_cons, ih, hak, hbk]

theorem sortByKey_filter {α : Type*} {κ : Type*} [LinearOrder κ] (key : α → κ)
    (k : κ) (l : List α) :
    (sortByKey key l).filter (fun r => decide (key r = k))
      = l.filter (fun r => decide (key r = k)) := by
  induction l with
  | nil => rfl
  | cons a t ih =>
    show ((keyInsert key a (sortByKey key t)).filter _) = _
    rw [keyInsert_filter, List.filter_cons, List.filter_cons, ih]

theorem keyInsert_perm {α : Type*} {κ : Type*} [LinearOrder κ] (key : α → κ)
    (a : α) (l : List α) : (keyInsert key a l).Perm (a :: l) := by
  induction l with
  | nil => rfl
  | cons b t ih =>
    rw [keyInsert_cons]
    by_cases hab : key a ≤ key b
    · rw [if_pos hab]
    · rw [if_neg hab]
      exact (ih.cons b).trans (List.Perm.swap a b t)

theorem sortByKey_perm {α : Type*} {κ : Type*} [LinearOrder κ] (key : α → κ)
    (l : List α) : (sortByKey key l).Perm l := by
  induction l with
  | nil => rfl
  | cons a t ih =>
    exact (keyInsert_perm key a (sortByKey key t)).trans (ih.cons a)

theorem keyInsert_mem {α : Type*} {κ : Type*} [LinearOrder κ] (key : α → κ)
    (a x : α) (l : List α) (hx : x ∈ keyInsert key a l) : x = a ∨ x ∈ l := by
  have := (keyInsert_perm key a l).mem_iff.mp hx
  simpa using this

theorem keyInsert_sorted {α : Type*} {κ : Type*} [LinearOrder κ] (key : α → κ)
    (a : α) (l : List α) (hl : l.Pairwise (fun x y => key x ≤ key y)) :
    (keyInsert key a l).Pairwise (fun x y => key x ≤ key y) := by
  induction l with
  | nil => simp [keyInsert]
  | cons b t ih =>
    rcases List.pairwise_cons.mp hl with ⟨hb, ht⟩
    rw [keyInsert_cons]
    by_cases hab : key a ≤ key b
    · rw [if_pos hab]
      refine List.pairwise_cons.mpr ⟨?_, hl⟩
      intro x hx
      rcases List.mem_cons.mp hx with rfl | hx
      · exact hab
      · exact le_trans hab (hb x hx)
    · have hba : key b ≤ key a := le_of_lt (lt_of_not_le hab)
      rw [if_neg hab]
      refine List.pairwise_cons.mpr ⟨?_, ih ht⟩
      intro x hx
      rcases keyInsert_mem key a x t hx with rfl | hx
      · exact hba
      · exact hb x hx

theorem sortByKey_sorted {α : Type*} {κ : Type*} [LinearOrder κ] (key : α → κ)
    (l : List α) : (sortByKey key l).Pairwise (fun x y => key x ≤ key y) := by
  induction l with
  | nil => simp [sortByKey]
  | cons a t ih => exact keyInsert_sorted key a _ ih

theorem dedupKeepLast_cons {α : Type*} {κ : Type*} [LinearOrder κ]
    (key : α → κ) (a : α) (t : List α) :
    dedupKeepLast key (a :: t)
      = if t.any (fun b => decide (key b = key a)) = true then dedupKeepLast key t
        else a :: dedupKeepLast key t := rfl

theorem dedupKeepLast_sublist {α : Type*} {κ : Type*} [LinearOrder κ]
    (key : α → κ) (l : List α) : (dedupKeepLast key l).Sublist l := by
  induction l with
  | nil => simp [dedupKeepLast]
  | cons a t ih =>
    rw [dedupKeepLast_cons]
    by_cases h : t.any (fun b => decide (key b = key a)) = true
    · rw [if_pos h]; exact ih.cons a
    · rw [if_neg h]; exact ih.cons₂ a

theorem dedupKeepLast_filter {α : Type*} {κ : Type*} [LinearOrder κ]
    (key : α → κ) (k : κ) (l : List α) :
    (dedupKeepLast key l).filter (fun r => decide (key r = k))
      = ((l.filter (fun r => decide (key r = k))).getLast?).toList := by
  induction l with
  | nil => rfl
  | cons a t ih =>
    rw [dedupKeepLast_cons]
    by_cases h : t.any (fun b => decide (key b = key a)) = true
    · rw [if_pos h]
      rcases List.any_eq_true.mp h with ⟨b, hb, hkb⟩
      have hkb' : key b = key a := of_decide_eq_true hkb
      by_cases hak : key a = k
      · have hmem : b ∈ t.filter (fun r => decide (key r = k)) :=
          List.mem_filter.mpr ⟨hb, decide_eq_true (hkb'.trans hak)⟩
        rcases hfil : t.filter (fun r => decide (key r = k)) with _ | ⟨c, u⟩
        · rw [hfil] at hmem; simp at hmem
        · simp [List.filter_cons, hak, ih, hfil]
      · simp [List.filter_cons, hak, ih]
    · rw [if_neg h]
      have hnone : ∀ b ∈ t, ¬ (key b = key a) := by
        intro b hb hkb
        exact h (List.any_eq_true.mpr ⟨b, hb, decide_eq_true hkb⟩)
      by_cases hak : key a = k
      · have hfil : t.filter (fun r => decide (key r = k)) = [] := by
          apply List.filter_eq_nil_iff.mpr
          intro b hb
          simp only [decide_eq_true_eq]
          intro hkb
          exact hnone b hb (hkb.trans hak.symm)
        simp [List.filter_cons, hak, ih, hfil]
      · simp [List.filter_cons, hak, ih]

theorem dedupKeepLast_keys_pairwise {α : Type*} {κ : Type*} [LinearOrder κ]
    (key : α → κ) (l : List α) :
    (dedupKeepLast key l).Pairwise (fun x y => key x ≠ key y) := by
  induction l with
  | nil => simp [dedupKeepLast]
  | cons a t ih =>
    rw [dedupKeepLast_cons]
    by_cases h : t.any (fun b => decide (key b = key a)) = true
    · rw [if_pos h]; exact ih
    · rw [if_neg h]
      have hnone : ∀ b ∈ t, ¬ (key b = key a) := by
        intro b hb hkb
        exact h (List.any_eq_true.mpr ⟨b, hb, decide_eq_true hkb⟩)
      refine List.pairwise_cons.mpr ⟨?_, ih⟩
      intro x hx hkx
      exact hnone x ((dedupKeepLast_sublist key t).subset hx) hkx.symm

/-- Pipeline `concat` + stable sort by key + `drop_duplicates(keep="last")` — the
shared shape of both merge sites. -/
def mergePipeline {α : Type*} {κ : Type*} [LinearOrder κ] (key : α → κ)
    (old new : List α) : List α :=
  dedupKeepLast key (sortByKey key (old ++ new))

theorem mergePipeline_filter {α : Type*} {κ : Type*} [LinearOrder κ]
    (key : α → κ) (old new : List α) (k : κ) :
    (mergePipeline key old new).filter (fun r => decide (key r = k))
      = (((old ++ new).filter (fun r => decide (key r = k))).getLast?).toList := by
  unfold mergePipeline
  rw [dedupKeepLast_filter, sortByKey_filter]

theorem mergePipeline_keys_pairwise {α : Type*} {κ : Type*} [LinearOrder κ]
    (key : α → κ) (old new : List α) :
    (mergePipeline key old new).Pairwise (fun x y => key x ≠ key y) :=
  dedupKeepLast_keys_pairwise key _

theorem mergePipeline_sorted_le {α : Type*} {κ : Type*} [LinearOrder κ]
    (key : α → κ) (old new : List α) :
    (mergePipeline key old new).Pairwise (fun x y => key x ≤ key y) :=
  List.Pairwise.sublist (dedupKeepLast_sublist key _) (sortByKey_sorted key _)

theorem option_none_or {α : Type*} (b : Option α) : (Option.or none b) = b := rfl

theorem option_some_or {α : Type*} (a : α) (b : Option α) :
    (Option.or (some a) b) = some a := rfl

theorem getLast?_cons_isSome {α : Type*} (c : α) (u : List α) :
    ∃ y, (c :: u).getLast? = some y := by
  induction u generalizing c with
  | nil => exact ⟨c, rfl⟩
  | cons e v ih =>
    rcases ih e with ⟨y, hy⟩
    exact ⟨y, by rw [List.getLast?_cons_cons]; exact hy⟩

theorem mergePipeline_sorted_lt {α : Type*} {κ : Type*} [LinearOrder κ]
    (key : α → κ) (old new : List α) :
    (mergePipeline key old new).Pairwise (fun x y => key x < key y) :=
  ((mergePipeline_sorted_le key old new).and
      (mergePipeline_keys_pairwise key old new)).imp
    (fun h => lt_of_le_of_ne h.1 h.2)

theorem pairwise_filter_single {α : Type*} {κ : Type*} [LinearOrder κ]
    (key : α → κ) (l : List α)
    (hl : l.Pairwise (fun x y => key x ≠ key y)) (k : κ) :
    ((l.filter (fun r => decide (key r = k))).getLast?).toList
      = l.filter (fun r => decide (key r = k)) := by
  induction l with
  | nil => rfl
  | cons a t ih =>
    rcases List.pairwise_cons.mp hl with ⟨ha, ht⟩
    by_cases hak : key a = k
    · have hfil : t.filter (fun r => decide (key r = k)) = [] := by
        apply List.filter_eq_nil_iff.mpr
        intro b hb
        simp only [decide_eq_true_eq]
        intro hkb
        exact ha b hb (hak.trans hkb.symm)
      have hfc : (a :: t).filter (fun r => decide (key r = k)) = [a] := by
        simp [List.filter_cons, hak, hfil]
      rw [hfc]
      rfl
    · have hfc : (a :: t).filter (fun r => decide (key r = k))
          = t.filter (fun r => decide (key r = k)) := by
        simp [List.filter_cons, hak]
      rw [hfc, ih ht]

theorem pairwise_mem_filter_eq {α : Type*} {κ : Type*} [LinearOrder κ]
    (key : α → κ) (l : List α)
    (hl : l.Pairwise (fun x y => key x ≠ key y)) (r : α) (hr : r ∈ l) :
    l.filter (fun x => decide (key x = key r)) = [r] := by
  induction l with
  | nil => simp at hr
  | cons a t ih =>
    rcases List.pairwise_cons.mp hl with ⟨ha, ht⟩
    rcases List.mem_cons.mp hr with rfl | hr
    · have hfil : t.filter (fun x => decide (key x = key r)) = [] := by
        apply List.filter_eq_nil_iff.mpr
        intro b hb
        simp only [decide_eq_true_eq]
        intro hkb
        exact ha b hb hkb.symm
      simp [List.filter_cons, hfil]
    · have hra : ¬ (key a = key r) := fun h => ha r hr h
      simp [List.filter_cons, hra, ih ht hr]

/-! ### The two merge sites -/

/-- Sort/dedup key of `daily_api._append_history`: `["Date","Player"]`,
compared lexicographically as pandas `sort_values` does. -/
def hKey (r : HRow) : Lex (ℤ × ℤ) := toLex (r.date, r.player)

/-- Sort/dedup key of `etr_add_daily.main`: `["Date","Player","Opp"]`. -/
def eKey (r : HRow) : Lex (ℤ × Lex (ℤ × ℤ)) := toLex (r.date, toLex (r.player, r.opp))

/-- Assignment `df_day["Date"] = day`: stamp the upload date onto every incoming row. -/
def stampDate (d : ℤ) (rows : List HRow) : List HRow :=
  rows.map (fun r => { r with date := d })

/-- Function `daily_api._append_history`: stamp the date, concatenate with the
previous history, stable-sort by `["Date","Player"]` and
`drop_duplicates(["Date","Player"], keep="last")`. -/
def appendHistory (prev day : List HRow) (d : ℤ) : List HRow :=
  mergePipeline hKey prev (stampDate d day)

/-- Merge of `etr_add_daily.main`: same pipeline, but sorted and deduplicated on
`["Date","Player","Opp"]` (lines 78-79). -/
def etrMasterMerge (master day : List HRow) (d : ℤ) : List HRow :=
  mergePipeline eKey master (stampDate d day)

/-- Concrete upload rows used in counterexamples and witnesses.  Player 7
faces opponent 100 in the first upload and opponent 200 in the corrected
re-upload of the same date. -/
def cxRow1 : HRow := ⟨0, 7, 1, 100, none, fun _ => none⟩

def cxRow2 : HRow := ⟨0, 7, 1, 200, none, fun _ => none⟩

/-- Claim C3, counterexample. Uploading a row for `(date 0, player 7)` with
opponent 100 and then a corrected row for the same `(date, player)` with
opponent 200 through `etr_add_daily.main` leaves TWO records for that
`(date, player)` key in the master, because that merge deduplicates on
`(Date, Player, Opp)` — refuting "at most one record per (date, player_id)
after every append". -/
theorem etr_master_merge_two_rows_per_player_date :
    ((etrMasterMerge (etrMasterMerge [] [cxRow1] 0) [cxRow2] 0).countP
        (fun r => decide (r.date = 0 ∧ r.player = 7))) = 2 := by
  decide

/-- Claim C3, amended. For `daily_api._append_history` the claim holds:
after an append the history has at most one row per `(Date, Player)` key;
a day row whose key already exists replaces the stored row (the last
occurrence in the uploaded file wins), and every stored row whose key is
not in the upload is retained unchanged.  (`etr_add_daily.main` instead
keys its master on `(Date, Player, Opp)`, so a re-upload that changes a
player's opponent for a date leaves two rows for that `(date, player)` —
see the counterexample.) -/
theorem append_history_key_unique (prev day : List HRow) (d : ℤ)
    (hprev : prev.Pairwise (fun x y => hKey x ≠ hKey y)) :
    ((appendHistory prev day d).Pairwise (fun x y => hKey x ≠ hKey y))
    ∧ (∀ k : Lex (ℤ × ℤ),
        (stampDate d day).filter (fun r => decide (hKey r = k)) ≠ [] →
        (appendHistory prev day d).filter (fun r => decide (hKey r = k))
          = (((stampDate d day).filter (fun r => decide (hKey r = k))).getLast?).toList)
    ∧ (∀ r ∈ prev, (∀ x ∈ stampDate d day, hKey x ≠ hKey r) →
        r ∈ appendHistory prev day d) := by
  refine ⟨mergePipeline_keys_pairwise hKey _ _, ?_, ?_⟩
  · intro k hne
    rw [appendHistory, mergePipeline_filter, List.filter_append, List.getLast?_append]
    rcases hd : (stampDate d day).filter (fun r => decide (hKey r = k)) with _ | ⟨c, u⟩
    · exact absurd hd hne
    · rcases getLast?_cons_isSome c u with ⟨y, hy⟩
      rw [hy, option_some_or]
  · intro r hr hkeys
    have hdayfil : (stampDate d day).filter (fun x => decide (hKey x = hKey r)) = [] := by
      apply List.filter_eq_nil_iff.mpr
      intro b hb
      simp only [decide_eq_true_eq]
      exact hkeys b hb
    have hres : (appendHistory prev day d).filter (fun x => decide (hKey x = hKey r)) = [r] := by
      rw [appendHistory, mergePipeline_filter, List.filter_append, hdayfil,
        List.append_nil, pairwise_mem_filter_eq hKey prev hprev r hr]
      rfl
    have : r ∈ (appendHistory prev day d).filter (fun x => decide (hKey x = hKey r)) := by
      rw [hres]; simp
    exact (List.mem_filter.mp this).1

/-- Witness for the amended C3 at a concrete history and upload. -/
theorem append_history_key_unique_witness :
    (appendHistory [cxRow1] [cxRow2] 1).Pairwise (fun x y => hKey x ≠ hKey y) :=
  (append_history_key_unique [cxRow1] [cxRow2] 1 (by simp)).1

/-- Claim C4. Appending the identical snapshot for the same date a second
time leaves the history exactly as it was after the first append (same
list of rows, hence same size and content). -/
theorem append_history_idempotent (prev day : List HRow) (d : ℤ) :
    appendHistory (appendHistory prev day d) day d = appendHistory prev day d := by
  have hpair1 : (appendHistory prev day d).Pairwise (fun x y => hKey x ≠ hKey y) :=
    mergePipeline_keys_pairwise hKey _ _
  have hpair2 : (appendHistory (appendHistory prev day d) day d).Pairwise
      (fun x y => hKey x ≠ hKey y) :=
    mergePipeline_keys_pairwise hKey _ _
  have hfilter : ∀ k : Lex (ℤ × ℤ),
      (appendHistory (appendHistory prev day d) day d).filter
          (fun r => decide (hKey r = k))
        = (appendHistory prev day d).filter (fun r => decide (hKey r = k)) := by
    intro k
    rw [show appendHistory (appendHistory prev day d) day d
        = mergePipeline hKey (appendHistory prev day d) (stampDate d day) from rfl,
      mergePipeline_filter, List.filter_append, List.getLast?_append]
    rcases hd : (stampDate d day).filter (fun r => decide (hKey r = k)) with _ | ⟨c, u⟩
    · show ((Option.or none _).toList) = _
      rw [option_none_or]
      exact pairwise_filter_single hKey _ hpair1 k
    · rw [show appendHistory prev day d
          = mergePipeline hKey prev (stampDate d day) from rfl,
        mergePipeline_filter, List.filter_append, List.getLast?_append, hd]
      rcases getLast?_cons_isSome c u with ⟨y, hy⟩
      rw [hy, option_some_or, option_some_or]
  have hmem : ∀ x, x ∈ appendHistory (appendHistory prev day d) day d
      ↔ x ∈ appendHistory prev day d := by
    intro x
    constructor
    · intro hx
      have : x ∈ (appendHistory (appendHistory prev day d) day d).filter
          (fun r => decide (hKey r = hKey x)) :=
        List.mem_filter.mpr ⟨hx, by simp⟩
      rw [hfilter (hKey x)] at this
      exact (List.mem_filter.mp this).1
    · intro hx
      have : x ∈ (appendHistory prev day d).filter
          (fun r => decide (hKey r = hKey x)) :=
        List.mem_filter.mpr ⟨hx, by simp⟩
      rw [← hfilter (hKey x)] at this
      exact (List.mem_filter.mp this).1
  have hnodup2 : (appendHistory (appendHistory prev day d) day d).Nodup :=
    hpair2.imp (fun h => by intro he; exact h (he ▸ rfl))
  have hnodup1 : (appendHistory prev day d).Nodup :=
    hpair1.imp (fun h => by intro he; exact h (he ▸ rfl))
  have hperm := (List.perm_ext_iff_of_nodup hnodup2 hnodup1).mpr hmem
  haveI : IsAntisymm HRow (fun x y => hKey x < hKey y) :=
    ⟨fun a b h1 h2 => (lt_asymm h1 h2).elim⟩
  exact List.eq_of_perm_of_sorted hperm
    (mergePipeline_sorted_lt hKey _ _) (mergePipeline_sorted_lt hKey _ _)

/-! ### Training calibrations (`daily_api._train_calibrations`)

The long player-EMA / opponent-multiplier frames are concatenations of
per-stat frames `[key, "stat", <stat>]`, one VALUE column per stat.  The
code then pivots with `values=<frame>.columns[-1]`, i.e. it reads every
cell from the single column belonging to the LAST stat present; cells of
rows tagged with any other stat are `NaN` in that column.  The embedding
reproduces this: a pivoted cell carries a value only when its stat equals
`lastStat`. -/

/-- Frame `sub = df[["Date",key,stat]].dropna(subset=[stat])`. -/
def emaSub (hist : List HRow) (s : Stat) : List HRow :=
  hist.filter (fun r => (r.stat s).isSome)

/-- Column `sub["w"] = _exponential_weights(sub["Date"])`. -/
noncomputable def subWeights (hist : List HRow) (s : Stat) : List ℝ :=
  expWeights EMA_HALFLIFE ((emaSub hist s).map (fun r => r.date))

noncomputable def weightedPairs (hist : List HRow) (s : Stat) : List (HRow × ℝ) :=
  (emaSub hist s).zip (subWeights hist s)

/-- Aggregate `sub.groupby("Player").apply(lambda g: (g[stat] * g["w"]).sum())` for
one player: the weights are computed over the whole per-stat sub-frame and
the products are summed within the player's group. -/
noncomputable def playerEmaFor (hist : List HRow) (s : Stat) (p : ℤ) : ℝ :=
  ((weightedPairs hist s).map
    (fun q => if q.1.player = p then ((q.1.stat s).getD 0) * q.2 else 0)).sum

/-- The stats whose per-stat sub-frame is non-empty, in `STAT_COLS` order —
these are the per-stat frames that reach the long concatenation, and the
order of their value columns in it. -/
def statsPresent (hist : List HRow) : List Stat :=
  statCols.filter (fun s => !(emaSub hist s).isEmpty)

/-- Value `columns[-1]` of the concatenated long frame: the value column of the
last stat present. -/
def lastStat (hist : List HRow) : Option Stat :=
  (statsPresent hist).getLast?

/-- The pivoted player-EMA table cell `(p, s)`:
`player_ema.pivot(index="Player", columns="stat", values=columns[-1])`.
A cell exists when player `p` has rows for stat `s`, but its value comes
from the `columns[-1]` value column, which is `NaN` unless `s` IS the last
stat present. -/
noncomputable def playerEmaWide (hist : List HRow) (p : ℤ) (s : Stat) : Option ℝ :=
  if s ∈ statsPresent hist ∧ p ∈ (emaSub hist s).map (fun r => r.player) then
    (if lastStat hist = some s then some (playerEmaFor hist s p) else none)
  else none

/-- Mean `sub.groupby("Date")[stat].transform("mean")` at one date. -/
noncomputable def dayMean (hist : List HRow) (s : Stat) (d : ℤ) : ℝ :=
  ((((emaSub hist s).filter (fun r => decide (r.date = d))).map
      (fun r => (r.stat s).getD 0)).sum)
    / ((((emaSub hist s).filter (fun r => decide (r.date = d))).map
      (fun r => (r.stat s).getD 0)).length)

/-- Ratio `sub["ratio"] = sub[stat] / day_mean.replace(0, 1e-9)`. -/
noncomputable def ratioOf (hist : List HRow) (s : Stat) (r : HRow) : ℝ :=
  ((r.stat s).getD 0)
    / (if dayMean hist s r.date = 0 then (1e-9 : ℝ) else dayMean hist s r.date)

/-- Aggregate `sub.groupby("Opp").apply(lambda g: (g["ratio"] * g["w"]).sum())`. -/
noncomputable def oppMultFor (hist : List HRow) (s : Stat) (o : ℤ) : ℝ :=
  ((weightedPairs hist s).map
    (fun q => if q.1.opp = o then ratioOf hist s q.1 * q.2 else 0)).sum

/-- The pivot's opponent index: every opponent appearing in any per-stat
frame of the long concatenation. -/
def oppIndex (hist : List HRow) : List ℤ :=
  ((statsPresent hist).flatMap (fun s => (emaSub hist s).map (fun r => r.opp))).dedup

/-- The pivoted opponent-multiplier cell `(o, s)` before renormalization,
with the same `values=columns[-1]` defect as the player table. -/
noncomputable def oppWideRaw (hist : List HRow) (o : ℤ) (s : Stat) : Option ℝ :=
  if s ∈ statsPresent hist ∧ o ∈ (emaSub hist s).map (fun r => r.opp) then
    (if lastStat hist = some s then some (oppMultFor hist s o) else none)
  else none

/-- The non-`NaN` entries of column `s` of the pivoted table. -/
noncomputable def oppColVals (hist : List HRow) (s : Stat) : List ℝ :=
  (oppIndex hist).filterMap (fun o => oppWideRaw hist o s)

/-- Column mean `m = opp_mult_wide[stat].mean()` — pandas `mean` skips `NaN`s and is
itself `NaN` when no value remains. -/
noncomputable def oppColMean (hist : List HRow) (s : Stat) : Option ℝ :=
  if (oppColVals hist s).isEmpty then none
  else some ((oppColVals hist s).sum / ((oppColVals hist s).length : ℝ))

/-- The multiplier column after the guarded renormalization
`if pd.notna(m) and m != 0: col = col / m`. -/
noncomputable def oppMultFinal (hist : List HRow) (o : ℤ) (s : Stat) : Option ℝ :=
  match oppColMean hist s with
  | some m => if m ≠ 0 then (oppWideRaw hist o s).map (fun x => x / m)
              else oppWideRaw hist o s
  | none => oppWideRaw hist o s

/-- The unweighted mean of the multipliers actually output for stat `s`
(`NaN` cells are not multipliers; pandas `mean` skips them). -/
noncomputable def oppMultFinalMean (hist : List HRow) (s : Stat) : Option ℝ :=
  if ((oppIndex hist).filterMap (fun o => oppMultFinal hist o s)).isEmpty then none
  else some ((((oppIndex hist).filterMap (fun o => oppMultFinal hist o s)).sum)
    / ((((oppIndex hist).filterMap (fun o => oppMultFinal hist o s)).length : ℝ)))

/-- A single-date weight column is `[1]`. -/
theorem expWeights_single (hl : ℝ) (d : ℤ) : expWeights hl [d] = [1] := by
  have h1 : denseRank [d] d = 1 := by simp [denseRank]
  have h2 : maxRank [d] = 1 := by simp [maxRank, h1]
  unfold expWeights decayOf
  simp only [List.map_cons, List.map_nil, List.sum_cons, List.sum_nil, h1, h2]
  norm_num

/-- A one-row history: on date 0, player 1 (team 1) faces opponent 100
with `PTS = 10` and `PRA = 20` (two stat columns present). -/
def histC5row : HRow :=
  ⟨0, 1, 1, 100, some 30, fun s => if s = .pts then some 10
    else if s = .pra then some 20 else none⟩

def histC5 : List HRow := [histC5row]

/-- Claim C5, code bug. With `PTS` and `PRA` both present (one opponent),
the trained opponent-multiplier column for `PTS` contains NO multipliers
at all — `pivot(values=columns[-1])` reads the `PRA` value column, so
every `PTS` cell is `NaN`, the guarded renormalization is skipped, and the
unweighted mean of the output `PTS` multipliers is undefined rather than
`1.0 ± 1e-6`.  Only the last stat column (`PRA`) is actually renormalized
to mean 1. -/
theorem opp_mult_renormalization_skipped :
    oppMultFinalMean histC5 .pts = none
    ∧ oppMultFinalMean histC5 .pra = some 1
    ∧ emaSub histC5 .pts ≠ [] := by
  have hsp : statsPresent histC5 = [Stat.pts, Stat.pra] := by decide
  have hls : lastStat histC5 = some Stat.pra := by rw [lastStat, hsp]; rfl
  have hidx : oppIndex histC5 = [100] := by decide
  have hemaPts : emaSub histC5 .pts = [histC5row] := by
    simp [emaSub, histC5, histC5row]
  have hemaPra : emaSub histC5 .pra = [histC5row] := by
    simp [emaSub, histC5, histC5row]
  have hraw_pts : oppWideRaw histC5 100 .pts = none := by
    simp [oppWideRaw, hls]
  have hfin_pts : oppMultFinal histC5 100 .pts = none := by
    simp [oppMultFinal, oppColMean, oppColVals, hidx, hraw_pts]
  have hmean_pts : oppMultFinalMean histC5 .pts = none := by
    simp [oppMultFinalMean, hidx, hfin_pts]
  have hw : subWeights histC5 .pra = [1] := by
    rw [subWeights, hemaPra]
    exact expWeights_single _ _
  have hwp : weightedPairs histC5 .pra = [(histC5row, 1)] := by
    rw [weightedPairs, hemaPra, hw]
    rfl
  have hdm : dayMean histC5 .pra 0 = 20 := by
    unfold dayMean
    rw [hemaPra]
    simp [histC5row]
  have hro : ratioOf histC5 .pra histC5row = 1 := by
    unfold ratioOf
    rw [show histC5row.date = 0 from rfl, hdm]
    simp [histC5row]
  have hom : oppMultFor histC5 .pra 100 = 1 := by
    unfold oppMultFor
    rw [hwp]
    simp [show histC5row.opp = (100 : ℤ) from rfl, hro]
  have hraw_pra : oppWideRaw histC5 100 .pra = some 1 := by
    simp [oppWideRaw, hsp, hls, hemaPra, histC5row, hom]
  have hcv : oppColVals histC5 .pra = [1] := by
    simp [oppColVals, hidx, hraw_pra]
  have hcm : oppColMean histC5 .pra = some 1 := by
    simp [oppColMean, hcv]
  have hfin_pra : oppMultFinal histC5 100 .pra = some 1 := by
    simp [oppMultFinal, hcm, hraw_pra]
  have hmean_pra : oppMultFinalMean histC5 .pra = some 1 := by
    simp [oppMultFinalMean, hidx, hfin_pra]
  refine ⟨hmean_pts, hmean_pra, ?_⟩
  rw [hemaPts]
  simp

/-! ### C6 — the three-date recency scenario -/

/-- One `Points`-only row for player 1 against opponent 100. -/
def c6row (d : ℤ) (v : ℝ) : HRow :=
  ⟨d, 1, 1, 100, none, fun s => if s = .pts then some v else none⟩

/-- Three dates for player 1 with Points 10, 20, 30, oldest to newest. -/
def histC6 : List HRow := [c6row 0 10, c6row 1 20, c6row 2 30]

theorem histC6_decay0 :
    decayOf EMA_HALFLIFE [0, 1, 2] 0 = (1 / 2 : ℝ) ^ ((1 : ℝ) / 5) := by
  unfold decayOf EMA_HALFLIFE
  rw [show denseRank [0, 1, 2] 0 = 1 by decide, show maxRank [0, 1, 2] = 3 by decide]
  congr 1
  norm_num

theorem histC6_decay1 :
    decayOf EMA_HALFLIFE [0, 1, 2] 1 = (1 / 2 : ℝ) ^ ((1 : ℝ) / 10) := by
  unfold decayOf EMA_HALFLIFE
  rw [show denseRank [0, 1, 2] 1 = 2 by decide, show maxRank [0, 1, 2] = 3 by decide]
  congr 1
  norm_num

theorem histC6_decay2 : decayOf EMA_HALFLIFE [0, 1, 2] 2 = 1 := by
  unfold decayOf EMA_HALFLIFE
  rw [show denseRank [0, 1, 2] 2 = 3 by decide, show maxRank [0, 1, 2] = 3 by decide]
  rw [show (((3 : ℕ) : ℝ) - ((3 : ℕ) : ℝ)) / 10 = 0 by norm_num, Real.rpow_zero]

theorem histC6_a_bounds :
    (4 / 5 : ℝ) ≤ (1 / 2 : ℝ) ^ ((1 : ℝ) / 5) ∧ (1 / 2 : ℝ) ^ ((1 : ℝ) / 5) < 1 := by
  constructor
  · have ha_pow : ((1 / 2 : ℝ) ^ ((1 : ℝ) / 5)) ^ (5 : ℕ) = 1 / 2 := by
      rw [← Real.rpow_natCast ((1 / 2 : ℝ) ^ ((1 : ℝ) / 5)) 5,
        ← Real.rpow_mul (by norm_num : (0 : ℝ) ≤ 1 / 2)]
      rw [show (1 : ℝ) / 5 * (5 : ℕ) = 1 by norm_num, Real.rpow_one]
    apply le_of_pow_le_pow_left₀ (n := 5) (by norm_num)
      (Real.rpow_nonneg (by norm_num) _)
    rw [ha_pow]
    norm_num
  · exact Real.rpow_lt_one (by norm_num) (by norm_num) (by norm_num)

theorem histC6_b_bounds :
    (3 / 4 : ℝ) ≤ (1 / 2 : ℝ) ^ ((1 : ℝ) / 10) ∧ (1 / 2 : ℝ) ^ ((1 : ℝ) / 10) ≤ 1 := by
  constructor
  · have hb_pow : ((1 / 2 : ℝ) ^ ((1 : ℝ) / 10)) ^ (10 : ℕ) = 1 / 2 := by
      rw [← Real.rpow_natCast ((1 / 2 : ℝ) ^ ((1 : ℝ) / 10)) 10,
        ← Real.rpow_mul (by norm_num : (0 : ℝ) ≤ 1 / 2)]
      rw [show (1 : ℝ) / 10 * (10 : ℕ) = 1 by norm_num, Real.rpow_one]
    apply le_of_pow_le_pow_left₀ (n := 10) (by norm_num)
      (Real.rpow_nonneg (by norm_num) _)
    rw [hb_pow]
    norm_num
  · exact Real.rpow_le_one (by norm_num) (by norm_num) (by norm_num)

theorem playerEma_histC6_eval :
    playerEmaFor histC6 .pts 1
      = (10 * ((1 / 2 : ℝ) ^ ((1 : ℝ) / 5)) + 20 * ((1 / 2 : ℝ) ^ ((1 : ℝ) / 10)) + 30)
        / ((1 / 2 : ℝ) ^ ((1 : ℝ) / 5) + ((1 / 2 : ℝ) ^ ((1 : ℝ) / 10) + 1)) := by
  have hema : emaSub histC6 .pts = histC6 := by
    simp [emaSub, histC6, c6row]
  have hdates : histC6.map (fun r => r.date) = [0, 1, 2] := rfl
  have hwts : subWeights histC6 .pts
      = [((1 / 2 : ℝ) ^ ((1 : ℝ) / 5)) / ((1 / 2 : ℝ) ^ ((1 : ℝ) / 5) + ((1 / 2 : ℝ) ^ ((1 : ℝ) / 10) + 1)),
         ((1 / 2 : ℝ) ^ ((1 : ℝ) / 10)) / ((1 / 2 : ℝ) ^ ((1 : ℝ) / 5) + ((1 / 2 : ℝ) ^ ((1 : ℝ) / 10) + 1)),
         1 / ((1 / 2 : ℝ) ^ ((1 : ℝ) / 5) + ((1 / 2 : ℝ) ^ ((1 : ℝ) / 10) + 1))] := by
    rw [subWeights, hema, hdates]
    unfold expWeights
    simp only [List.map_cons, List.map_nil, List.sum_cons, List.sum_nil,
      histC6_decay0, histC6_decay1, histC6_decay2, add_zero]
  have hS : 0 < (1 / 2 : ℝ) ^ ((1 : ℝ) / 5) + ((1 / 2 : ℝ) ^ ((1 : ℝ) / 10) + 1) := by
    have h1 := Real.rpow_pos_of_pos (show (0 : ℝ) < 1 / 2 by norm_num) ((1 : ℝ) / 5)
    have h2 := Real.rpow_pos_of_pos (show (0 : ℝ) < 1 / 2 by norm_num) ((1 : ℝ) / 10)
    linarith
  unfold playerEmaFor weightedPairs
  rw [hema, hwts]
  simp [histC6, c6row]
  field_simp
  ring

/-- Shared bounds: the recency-weighted estimate lies strictly between
20 and 21. -/
theorem playerEma_histC6_bounds :
    20 < playerEmaFor histC6 .pts 1 ∧ playerEmaFor histC6 .pts 1 < 21 := by
  have ha := histC6_a_bounds
  have hb := histC6_b_bounds
  have hS : 0 < (1 / 2 : ℝ) ^ ((1 : ℝ) / 5) + ((1 / 2 : ℝ) ^ ((1 : ℝ) / 10) + 1) := by
    linarith [ha.1, hb.1]
  rw [playerEma_histC6_eval]
  constructor
  · rw [lt_div_iff₀ hS]
    nlinarith [ha.2, hb.1]
  · rw [div_lt_iff₀ hS]
    nlinarith [ha.1, hb.1]

/-- Claim C6, counterexample. For the history with three dates for player 1
and Points 10, 20, 30 (oldest to newest) under halflife 10, the estimate
the code produces (≈ 20.46, since decay is over dense date RANKS) is NOT
closer to 30 than to the simple mean 20: `|est − 30| < |est − 20|` fails. -/
theorem player_ema_recency_scenario_refuted :
    ¬ (|playerEmaFor histC6 .pts 1 - 30| < |playerEmaFor histC6 .pts 1 - 20|) := by
  rcases playerEma_histC6_bounds with ⟨h20, h21⟩
  rw [abs_of_neg (by linarith : playerEmaFor histC6 .pts 1 - 30 < 0),
    abs_of_pos (by linarith : 0 < playerEmaFor histC6 .pts 1 - 20)]
  intro h
  linarith

/-- Claim C6, amended. The estimate for that history exceeds the simple
mean 20 (it is pulled toward the newest value 30), but because decay is
taken over dense date ranks with halflife 10 it stays closer to 20 than
to 30: `|est − 20| < |est − 30|`. -/
theorem player_ema_recency_scenario_amended :
    20 < playerEmaFor histC6 .pts 1
    ∧ |playerEmaFor histC6 .pts 1 - 20| < |playerEmaFor histC6 .pts 1 - 30| := by
  rcases playerEma_histC6_bounds with ⟨h20, h21⟩
  refine ⟨h20, ?_⟩
  rw [abs_of_neg (by linarith : playerEmaFor histC6 .pts 1 - 30 < 0),
    abs_of_pos (by linarith : 0 < playerEmaFor histC6 .pts 1 - 20)]
  linarith

/-! ### Latest-projection rebuild (`daily_api._rebuild_latest_projections`)

`base = today.merge(player_ema, on="Player", suffixes=("","_EMA"))
           .merge(opp_mult, on="Opp", suffixes=("","_OPP"))`
renames the RIGHT side of every column collision, so after both merges the
unsuffixed stat columns still hold the day's raw feed values, the EMA
table's columns are `"<stat>_EMA"` and the multiplier table's are
`"<stat>_OPP"`.  Lines 165-166 then read `out.get(stat)` — the unsuffixed
name — for BOTH `ema_vals` and `opp_vals`. -/

def statName : Stat → String
  | .pts => "PTS" | .reb => "REB" | .ast => "AST" | .tpm => "3PM"
  | .stl => "STL" | .blk => "BLK" | .tov => "TO" | .pra => "PRA"

/-- pandas merge suffix behaviour: right-hand columns colliding with a
left-hand column name get the suffix appended. -/
def mergeSuffix (left right : List (String × Option ℝ)) (suf : String) :
    List (String × Option ℝ) :=
  left ++ right.map (fun kv =>
    (if (left.map Prod.fst).contains kv.1 then kv.1 ++ suf else kv.1, kv.2))

/-- Lookup `DataFrame.get(name)` / `df[name]` for one row: `none` when the column
is absent, `some v` (with `v` the possibly-`NaN` cell) when present. -/
def frameGet (cols : List (String × Option ℝ)) (k : String) : Option (Option ℝ) :=
  (cols.find? (fun kv => kv.1 == k)).map Prod.snd

/-- The day row's stat columns. -/
def todayCols (r : HRow) : List (String × Option ℝ) :=
  statCols.map (fun s => (statName s, r.stat s))

/-- The columns contributed by the pivoted player-EMA table for this row's
player (left join on `"Player"`). -/
noncomputable def emaCols (hist : List HRow) (p : ℤ) : List (String × Option ℝ) :=
  (statsPresent hist).map (fun s => (statName s, playerEmaWide hist p s))

/-- The columns contributed by the renormalized opponent-multiplier table
for this row's opponent (left join on `"Opp"`). -/
noncomputable def oppJoinCols (hist : List HRow) (o : ℤ) : List (String × Option ℝ) :=
  (statsPresent hist).map (fun s => (statName s, oppMultFinal hist o s))

/-- One row of `base` after both merges. -/
noncomputable def mergedRow (hist : List HRow) (r : HRow) : List (String × Option ℝ) :=
  mergeSuffix (mergeSuffix (todayCols r) (emaCols hist r.player) "_EMA")
    (oppJoinCols hist r.opp) "_OPP"

/-- Constant `W_ETR = 0.60` (`daily_api.py` line 24). -/
def W_ETR : ℝ := 0.60

/-- Constant `W_CAL = 0.40` (`daily_api.py` line 25). -/
def W_CAL : ℝ := 0.40

/-- The `NaN`-propagating product of two possibly-missing values. -/
def oMul (x y : Option ℝ) : Option ℝ := x.bind (fun a => y.map (fun b => a * b))

/-- Lines 163-171 of `daily_api.py` for one row and one stat:
`ema_vals = out.get(stat)`, `opp_vals = out.get(stat)` (both the unsuffixed
raw column), the `notna` fallbacks, `cal = ema_vals * opp_vals` and
`FINAL = W_ETR * out[stat] + W_CAL * cal`. -/
noncomputable def rebuildFinal (hist : List HRow) (r : HRow) (s : Stat) : Option ℝ :=
  let out := mergedRow hist r
  let raw : Option ℝ := (frameGet out (statName s)).getD none
  let emaVals : Option ℝ := (frameGet out (statName s)).getD none
  let oppVals : Option ℝ := (frameGet out (statName s)).getD none
  let emaVals2 := if emaVals.isSome then emaVals else raw
  let oppVals2 := if oppVals.isSome then oppVals else some 1
  let cal := oMul emaVals2 oppVals2
  raw.bind (fun rv => cal.map (fun cv => W_ETR * rv + W_CAL * cv))

/-- Modelled from the spec (§4.5 Blend Engine), for comparison only:
`Final = weight_etr·raw + weight_cal·(player estimate | raw)·(opponent
multiplier | 1)`. -/
noncomputable def specBlend (raw : ℝ) (est : Option ℝ) (m : Option ℝ) : ℝ :=
  W_ETR * raw + W_CAL * ((est.getD raw) * (m.getD 1))

theorem frameGet_mergeSuffix_left (cols right : List (String × Option ℝ))
    (suf k : String) (h : (frameGet cols k).isSome) :
    frameGet (mergeSuffix cols right suf) k = frameGet cols k := by
  unfold frameGet mergeSuffix
  rw [List.find?_append]
  unfold frameGet at h
  rcases hf : cols.find? (fun kv => kv.1 == k) with _ | v
  · rw [hf] at h; simp at h
  · rw [hf]; rfl

theorem frameGet_todayCols (r : HRow) (s : Stat) :
    frameGet (todayCols r) (statName s) = some (r.stat s) := by
  cases s <;> rfl

theorem frameGet_merged (hist : List HRow) (r : HRow) (s : Stat) :
    frameGet (mergedRow hist r) (statName s) = some (r.stat s) := by
  have h1 : frameGet (todayCols r) (statName s) = some (r.stat s) :=
    frameGet_todayCols r s
  have h1s : (frameGet (todayCols r) (statName s)).isSome := by rw [h1]; rfl
  have h2 : frameGet (mergeSuffix (todayCols r) (emaCols hist r.player) "_EMA")
      (statName s) = some (r.stat s) := by
    rw [frameGet_mergeSuffix_left _ _ _ _ h1s, h1]
  have h2s : (frameGet (mergeSuffix (todayCols r) (emaCols hist r.player) "_EMA")
      (statName s)).isSome := by rw [h2]; rfl
  unfold mergedRow
  rw [frameGet_mergeSuffix_left _ _ _ _ h2s, h2]

/-- For any stat whose raw value is present, the rebuilt FINAL value is
`W_ETR·raw + W_CAL·raw²` — the calibration tables never enter, because
both `out.get(stat)` reads resolve to the raw column. -/
theorem rebuildFinal_eval (hist : List HRow) (r : HRow) (s : Stat) (v : ℝ)
    (hv : r.stat s = some v) :
    rebuildFinal hist r s = some (W_ETR * v + W_CAL * (v * v)) := by
  unfold rebuildFinal
  simp only [frameGet_merged hist r s, hv, Option.getD_some, Option.isSome_some,
    if_true, oMul, Option.bind_some, Option.map_some]
  rfl

/-- One-row history with only `PTS = 10` for player 1 vs opponent 100. -/
def histC1row : HRow :=
  ⟨0, 1, 1, 100, some 30, fun s => if s = .pts then some 10 else none⟩

def histC1 : List HRow := [histC1row]

/-- Claim C1, code bug. For the one-row history (`PTS = 10`), the code's own
calibration tables hold player estimate 10 and opponent multiplier 1, so
the claimed blend is `0.6·10 + 0.4·(10·1) = 10`; but
`_rebuild_latest_projections` outputs `0.6·10 + 0.4·(10·10) = 46`, because
`ema_vals = out.get(stat)` and `opp_vals = out.get(stat)` both read the
unsuffixed raw column (the merge renamed the calibration columns to
`PTS_EMA` / `PTS_OPP`), making the "calibrated value" the square of the
raw feed value. -/
theorem rebuild_blend_squares_raw :
    rebuildFinal histC1 histC1row .pts = some 46
    ∧ playerEmaWide histC1 1 .pts = some 10
    ∧ oppMultFinal histC1 100 .pts = some 1
    ∧ specBlend 10 (playerEmaWide histC1 1 .pts) (oppMultFinal histC1 100 .pts) = 10
    ∧ rebuildFinal histC1 histC1row .pts
        ≠ some (specBlend 10 (playerEmaWide histC1 1 .pts)
            (oppMultFinal histC1 100 .pts)) := by
  have hval : histC1row.stat .pts = some 10 := rfl
  have h1 : rebuildFinal histC1 histC1row .pts = some 46 := by
    rw [rebuildFinal_eval histC1 histC1row .pts 10 hval]
    norm_num [W_ETR, W_CAL]
  have hsp1 : statsPresent histC1 = [Stat.pts] := by decide
  have hls1 : lastStat histC1 = some Stat.pts := by rw [lastStat, hsp1]; rfl
  have hema1 : emaSub histC1 .pts = [histC1row] := by
    simp [emaSub, histC1, histC1row]
  have hw1 : subWeights histC1 .pts = [1] := by
    rw [subWeights, hema1]
    exact expWeights_single _ _
  have hwp1 : weightedPairs histC1 .pts = [(histC1row, 1)] := by
    rw [weightedPairs, hema1, hw1]
    rfl
  have hpe1 : playerEmaFor histC1 .pts 1 = 10 := by
    unfold playerEmaFor
    rw [hwp1]
    simp [show histC1row.player = (1 : ℤ) from rfl, hval]
  have hwide1 : playerEmaWide histC1 1 .pts = some 10 := by
    simp [playerEmaWide, hsp1, hls1, hema1, hpe1, show histC1row.player = (1 : ℤ) from rfl]
  have hdm1 : dayMean histC1 .pts 0 = 10 := by
    unfold dayMean
    rw [hema1]
    simp [show histC1row.date = (0 : ℤ) from rfl, hval]
  have hro1 : ratioOf histC1 .pts histC1row = 1 := by
    unfold ratioOf
    rw [show histC1row.date = (0 : ℤ) from rfl, hdm1, hval]
    norm_num
  have hom1 : oppMultFor histC1 .pts 100 = 1 := by
    unfold oppMultFor
    rw [hwp1]
    simp [show histC1row.opp = (100 : ℤ) from rfl, hro1]
  have hraw1 : oppWideRaw histC1 100 .pts = some 1 := by
    simp [oppWideRaw, hsp1, hls1, hema1, hom1, show histC1row.opp = (100 : ℤ) from rfl]
  have hidx1 : oppIndex histC1 = [100] := by decide
  have hcv1 : oppColVals histC1 .pts = [1] := by
    simp [oppColVals, hidx1, hraw1]
  have hcm1 : oppColMean histC1 .pts = some 1 := by
    simp [oppColMean, hcv1]
  have hfin1 : oppMultFinal histC1 100 .pts = some 1 := by
    simp [oppMultFinal, hcm1, hraw1]
  have hspec : specBlend 10 (some (10 : ℝ)) (some (1 : ℝ)) = 10 := by
    norm_num [specBlend, W_ETR, W_CAL]
  refine ⟨h1, hwide1, hfin1, ?_, ?_⟩
  · rw [hwide1, hfin1, hspec]
  · rw [h1, hwide1, hfin1, hspec]
    intro h
    have := Option.some.inj h
    norm_num at this

/-! ### C2 — PRA and the blend paths -/

/-- One-row history with `PTS = 10`, `REB = 5`, `AST = 5`, `PRA = 20`. -/
def histC2row : HRow :=
  ⟨0, 1, 1, 100, some 30, fun s =>
    if s = .pts then some 10 else if s = .reb then some 5
    else if s = .ast then some 5 else if s = .pra then some 20 else none⟩

def histC2 : List HRow := [histC2row]

/-- A projection row of `app.py` (keys `'Points'`, `'Assists'`, …, `'PRA'`). -/
structure Proj where
  pts : ℝ
  ast : ℝ
  reb : ℝ
  tpm : ℝ
  stl : ℝ
  blk : ℝ
  tov : ℝ
  pra : ℝ

/-- A player's learned ETR per-minute rates (`self.etr_rates[player]`),
with the `.get(..., 0)` defaults already resolved. -/
structure EtrRates where
  sample : ℕ
  tpmPerMin : ℝ
  stlPerMin : ℝ
  blkPerMin : ℝ
  tovPerMin : ℝ

/-- Position-fallback per-minute rates
(`tuning['position_fallback_rates'][position]`, `.get` defaults applied). -/
structure PosRates where
  ptsPerMin : ℝ
  astPerMin : ℝ
  rebPerMin : ℝ
  tpmPerMin : ℝ

/-- The sample-size confidence ladder of `blend_with_etr_rates`
(lines 436-443): `==1`, `≤3`, `≤6`, else. -/
def confFor (c1 c23 c46 c7 : ℝ) (n : ℕ) : ℝ :=
  if n = 1 then c1 else if n ≤ 3 then c23 else if n ≤ 6 then c46 else c7

/-- Function `blend_with_etr_rates` of `app.py` (lines 399-486).  The data lookups that
feed it — the effective per-minute rates from `_get_effective_rate`, the
tuning confidences, the position-fallback table hit and the opponent
defense triple (`pts_mult`, `ast_mult`, `reb_mult`, defaults 1.0) — are
passed in as arguments; the arithmetic and control flow are the
function's own. -/
noncomputable def blendWithEtrRates (ml : Proj) (etr : Option EtrRates)
    (posRates : Option PosRates) (minutes : ℝ) (c1 c23 c46 c7 : ℝ)
    (ptsRate astRate rebRate : ℝ) (oppAdj : Option (ℝ × ℝ × ℝ)) : Proj :=
  match etr with
  | none =>
    match posRates with
    | some pr =>
      { ml with
        pts := pr.ptsPerMin * minutes
        ast := pr.astPerMin * minutes
        reb := pr.rebPerMin * minutes
        tpm := pr.tpmPerMin * minutes
        stl := 0.02 * minutes
        blk := 0.02 * minutes
        tov := 0.05 * minutes
        pra := pr.ptsPerMin * minutes + pr.rebPerMin * minutes
          + pr.astPerMin * minutes }
    | none => ml
  | some e =>
    if e.sample < 1 then ml
    else
      let conf := confFor c1 c23 c46 c7 e.sample
      let etrPts := ptsRate * minutes
      let etrAst := astRate * minutes
      let etrReb := rebRate * minutes
      let base : ℝ × ℝ × ℝ :=
        match posRates with
        | some pr =>
          if conf < 1 then
            (conf * etrPts + (1 - conf) * (pr.ptsPerMin * minutes),
             conf * etrAst + (1 - conf) * (pr.astPerMin * minutes),
             conf * etrReb + (1 - conf) * (pr.rebPerMin * minutes))
          else (etrPts, etrAst, etrReb)
        | none => (etrPts, etrAst, etrReb)
      let adj : ℝ × ℝ × ℝ := match oppAdj with
        | some a => a
        | none => (1, 1, 1)
      { pts := base.1 * adj.1
        ast := base.2.1 * adj.2.1
        reb := base.2.2 * adj.2.2
        tpm := e.tpmPerMin * minutes
        stl := e.stlPerMin * minutes
        blk := e.blkPerMin * minutes
        tov := e.tovPerMin * minutes
        pra := base.1 * adj.1 + base.2.2 * adj.2.2 + base.2.1 * adj.2.1 }

/-- Claim C2, code bug. In the blend of `app.py`, PRA is recomputed
from the blended components on every blending path (clauses 2-3).  But
`daily_api._rebuild_latest_projections` blends `PRA` as an independent
eighth statistic: for the one-row history (`PTS 10, REB 5, AST 5,
PRA 20`) it outputs `PRA_FINAL = 172` while the blended components sum to
`46 + 13 + 13 = 72` (clause 1). -/
theorem pra_blend_consistency :
    (rebuildFinal histC2 histC2row .pra = some 172
      ∧ rebuildFinal histC2 histC2row .pts = some 46
      ∧ rebuildFinal histC2 histC2row .reb = some 13
      ∧ rebuildFinal histC2 histC2row .ast = some 13
      ∧ (172 : ℝ) ≠ 46 + 13 + 13)
    ∧ (∀ ml e posRates minutes c1 c23 c46 c7 ptsRate astRate rebRate oppAdj,
        1 ≤ e.sample →
        (blendWithEtrRates ml (some e) posRates minutes c1 c23 c46 c7
            ptsRate astRate rebRate oppAdj).pra
          = (blendWithEtrRates ml (some e) posRates minutes c1 c23 c46 c7
              ptsRate astRate rebRate oppAdj).pts
            + (blendWithEtrRates ml (some e) posRates minutes c1 c23 c46 c7
                ptsRate astRate rebRate oppAdj).reb
            + (blendWithEtrRates ml (some e) posRates minutes c1 c23 c46 c7
                ptsRate astRate rebRate oppAdj).ast)
    ∧ (∀ ml pr minutes c1 c23 c46 c7 ptsRate astRate rebRate oppAdj,
        (blendWithEtrRates ml none (some pr) minutes c1 c23 c46 c7
            ptsRate astRate rebRate oppAdj).pra
          = (blendWithEtrRates ml none (some pr) minutes c1 c23 c46 c7
              ptsRate astRate rebRate oppAdj).pts
            + (blendWithEtrRates ml none (some pr) minutes c1 c23 c46 c7
                ptsRate astRate rebRate oppAdj).reb
            + (blendWithEtrRates ml none (some pr) minutes c1 c23 c46 c7
                ptsRate astRate rebRate oppAdj).ast) := by
  refine ⟨⟨?_, ?_, ?_, ?_, by norm_num⟩, ?_, ?_⟩
  · rw [rebuildFinal_eval histC2 histC2row .pra 20 rfl]
    norm_num [W_ETR, W_CAL]
  · rw [rebuildFinal_eval histC2 histC2row .pts 10 rfl]
    norm_num [W_ETR, W_CAL]
  · rw [rebuildFinal_eval histC2 histC2row .reb 5 rfl]
    norm_num [W_ETR, W_CAL]
  · rw [rebuildFinal_eval histC2 histC2row .ast 5 rfl]
    norm_num [W_ETR, W_CAL]
  · intro ml e posRates minutes c1 c23 c46 c7 ptsRate astRate rebRate oppAdj hs
    have hlt : ¬ (e.sample < 1) := by omega
    simp only [blendWithEtrRates, hlt, if_false]
  · intro ml pr minutes c1 c23 c46 c7 ptsRate astRate rebRate oppAdj
    simp only [blendWithEtrRates]

/-- Witness for the blending-path clauses of C2 at concrete inputs. -/
theorem pra_blend_consistency_witness :
    (blendWithEtrRates ⟨1, 1, 1, 1, 1, 1, 1, 1⟩ (some ⟨2, 0, 0, 0, 0⟩) none
        30 0.5 0.75 0.9 1 0.4 0.2 0.2 none).pra
      = (blendWithEtrRates ⟨1, 1, 1, 1, 1, 1, 1, 1⟩ (some ⟨2, 0, 0, 0, 0⟩) none
          30 0.5 0.75 0.9 1 0.4 0.2 0.2 none).pts
        + (blendWithEtrRates ⟨1, 1, 1, 1, 1, 1, 1, 1⟩ (some ⟨2, 0, 0, 0, 0⟩) none
            30 0.5 0.75 0.9 1 0.4 0.2 0.2 none).reb
        + (blendWithEtrRates ⟨1, 1, 1, 1, 1, 1, 1, 1⟩ (some ⟨2, 0, 0, 0, 0⟩) none
            30 0.5 0.75 0.9 1 0.4 0.2 0.2 none).ast :=
  pra_blend_consistency.2.1 ⟨1, 1, 1, 1, 1, 1, 1, 1⟩ ⟨2, 0, 0, 0, 0⟩ none
    30 0.5 0.75 0.9 1 0.4 0.2 0.2 none (by norm_num)

/-! ### Usage Redistribution Engine (`app.py`)

`calculate_usage_adjustments` (lines 815-994) with its two assist-override
sources: the learned-impacts `calculate_assist_redistribution`
(lines 599-667) that it actually calls, and
`_fallback_assist_redistribution` (lines 669-813) with the 1.50/1.35/1.30
caps.  External data sources (the learned-impacts table, the pattern
matcher's result, `team_caps`, `get_typical_team_minutes`' aggregation and
`player_averages`) are inputs; the multiplier arithmetic, capping and
merge policy are the functions' own. -/

/-- The six adjusted stats (`'Points'`, `'Rebounds'`, `'Assists'`,
`'Steals'`, `'Blocks'`, `'Three Pointers Made'`). -/
inductive UStat
  | upts | ureb | uast | ustl | ublk | utpm
deriving DecidableEq

def uStats : List UStat := [.upts, .ureb, .uast, .ustl, .ublk, .utpm]

/-- One player's adjustment entry: per-stat multipliers (a stat may be
absent on the generic path) and the `'source'` tag. -/
structure Adjustment where
  mult : UStat → Option ℝ
  source : String

/-- One `{ast,pts,reb}_multiplier` record of the learned absence-impact
table, `.get(..., 1.0)` defaults applied. -/
structure ImpactData where
  astMult : ℝ
  ptsMult : ℝ
  rebMult : ℝ

def projNames (projected : List (String × ℝ)) : List String :=
  projected.map Prod.fst

/-- The fresh entry written for a teammate (lines 649-659), clamped to the
observed ETR ranges. -/
def impactEntry (imp : ImpactData) : Adjustment :=
  ⟨fun st => match st with
    | .upts => some (max 0.89 (min 1.13 imp.ptsMult))
    | .ureb => some (max 0.90 (min 1.15 imp.rebMult))
    | .uast => some (max 0.85 (min 1.20 imp.astMult))
    | .ustl => some 1
    | .ublk => some 1
    | .utpm => some (max 0.90 (min 1.10 imp.ptsMult)), "etr_calibrated_absence"⟩

/-- The combine branch (lines 642-647): multiply into the existing entry
and re-clamp; Steals/Blocks/3PM are left untouched. -/
def impactCombine (old : Adjustment) (imp : ImpactData) : Adjustment :=
  ⟨fun st => match st with
    | .upts => some (max 0.89 (min 1.13 (((old.mult .upts).getD 1) * imp.ptsMult)))
    | .ureb => some (max 0.90 (min 1.15 (((old.mult .ureb).getD 1) * imp.rebMult)))
    | .uast => some (max 0.85 (min 1.20 (((old.mult .uast).getD 1) * imp.astMult)))
    | s => old.mult s, old.source⟩

/-- Processing one `(teammate, impact_data)` pair of a missing star
(lines 633-659). -/
noncomputable def processTeammate (projected : List (String × ℝ)) (imp : ImpactData)
    (teammate : String) (acc : List (String × Adjustment)) :
    List (String × Adjustment) :=
  if (projNames projected).contains teammate then
    if |imp.astMult - 1| > 0.02 ∨ |imp.ptsMult - 1| > 0.02 then
      if (acc.map Prod.fst).contains teammate then
        acc.map (fun q => if q.1 = teammate then (q.1, impactCombine q.2 imp) else q)
      else acc ++ [(teammate, impactEntry imp)]
    else acc
  else acc

/-- Function `calculate_assist_redistribution` (lines 599-667): apply the learned
per-teammate multipliers of every missing star; no data or no missing star
yields `{}`. -/
noncomputable def calcAssistRedistribution
    (teamImpacts : Option (List (String × List (String × ImpactData))))
    (projected : List (String × ℝ)) : List (String × Adjustment) :=
  match teamImpacts with
  | none => []
  | some impacts =>
    let missingStars := impacts.filter
      (fun st => !(projNames projected).contains st.1)
    if missingStars.isEmpty then []
    else missingStars.foldl
      (fun acc st => st.2.foldl
        (fun acc2 tm => processTeammate projected tm.2 tm.1 acc2) acc) []

/-- Per-player aggregates from `master_stats` feeding
`_fallback_assist_redistribution` (the `groupby('Player').agg` means). -/
structure FPStats where
  assists : ℝ
  points : ℝ
  rebounds : ℝ
  position : String
  minutes : ℝ

def lookupFP (ps : List (String × FPStats)) (p : String) : Option FPStats :=
  (ps.find? (fun q => q.1 == p)).map Prod.snd

/-- The adjustment entry written by `_fallback_assist_redistribution`
(lines 792-802): the three capped multipliers plus the derived
steals/blocks/threes multipliers with their own caps. -/
def assistEntry (assistBoost rebBoost am pm rm : ℝ) : Adjustment :=
  ⟨fun st => match st with
    | .upts => some pm
    | .ureb => some rm
    | .uast => some am
    | .ustl => some (min (1 + assistBoost * 0.3) 1.20)
    | .ublk => some (min (1 + rebBoost * 0.3) 1.20)
    | .utpm => some (min (pm * 0.95) 1.30), "assist_redistribution"⟩

/-- Lines 790-802: the entry is added only when the boost is meaningful
(`assist_multiplier > 1.05 or points_multiplier > 1.05`). -/
noncomputable def fallbackSelect (name : String) (assistBoost rebBoost am pm rm : ℝ) :
    Option (String × Adjustment) :=
  if am > 1.05 ∨ pm > 1.05 then
    some (name, assistEntry assistBoost rebBoost am pm rm)
  else none

/-- The entry `_fallback_assist_redistribution` computes for the `i`-th
most-used active player (lines 745-802); `none` when the boost is not
meaningful (`assist_multiplier ≤ 1.05` and `points_multiplier ≤ 1.05`). -/
noncomputable def fallbackEntry (playerStats : List (String × FPStats))
    (playerAverages : String → Option (ℝ × ℝ × ℝ))
    (assistPool pointsPool rebPool totalActive : ℝ)
    (ip : ℕ × (String × ℝ)) : Option (String × Adjustment) :=
  let name := ip.2.1
  let mins := ip.2.2
  let minuteShare := if totalActive > 0 then mins / totalActive else 0
  let position := ((lookupFP playerStats name).map (fun f => f.position)).getD "SF"
  let baseA0 := ((lookupFP playerStats name).map (fun f => f.assists)).getD 0
  let baseP0 := ((lookupFP playerStats name).map (fun f => f.points)).getD 0
  let baseR0 := ((lookupFP playerStats name).map (fun f => f.rebounds)).getD 0
  let bases : ℝ × ℝ × ℝ :=
    match playerAverages name with
    | some av => if baseA0 = 0 then (av.1, av.2.1, av.2.2) else (baseA0, baseP0, baseR0)
    | none => (baseA0, baseP0, baseR0)
  let isGuard := position = "PG" ∨ position = "SG"
  let isPrimary := ip.1 = 0
  let isSecondary := ip.1 = 1
  let assistShare : ℝ :=
    if isPrimary ∧ isGuard then 0.40
    else if isPrimary then 0.30
    else if isSecondary ∧ isGuard then 0.25
    else if isSecondary then 0.15
    else minuteShare * 0.5
  let assistBoost := if bases.1 > 0.5 then assistPool * assistShare / bases.1 else 0
  let pointsBoost := if bases.2.1 > 1 then pointsPool * minuteShare / bases.2.1 else 0
  let rebBoost := if bases.2.2 > 1 then rebPool * minuteShare / bases.2.2 else 0
  fallbackSelect name assistBoost rebBoost
    (min (1 + assistBoost) 1.50) (min (1 + pointsBoost) 1.35)
    (min (1 + rebBoost) 1.30)

/-- Function `_fallback_assist_redistribution` (lines 669-813). -/
noncomputable def fallbackAssistRedistribution
    (playerStats : List (String × FPStats)) (projected : List (String × ℝ))
    (playerAverages : String → Option (ℝ × ℝ × ℝ)) :
    List (String × Adjustment) :=
  let missing := playerStats.filter (fun q =>
    decide (q.2.assists ≥ 6) && decide (q.2.minutes ≥ 20)
      && !(projNames projected).contains q.1)
  if missing.isEmpty then []
  else
    let assistPool := 0.50 * (missing.map (fun q => q.2.assists)).sum
    let pointsPool := 0.45 * (missing.map (fun q => q.2.points)).sum
    let rebPool := 0.60 * (missing.map (fun q => q.2.rebounds)).sum
    let actives := sortByKey (fun pr : String × ℝ => -pr.2)
      (projected.filter (fun pr => decide (pr.2 ≥ 15)))
    if actives.isEmpty then []
    else
      let totalActive := (actives.map Prod.snd).sum
      actives.enum.filterMap
        (fallbackEntry playerStats playerAverages assistPool pointsPool rebPool totalActive)

/-- One roster slot of `get_typical_team_minutes`: typical minutes and the
per-stat `master_stats` means, `.get(stat, 0)` defaults applied. -/
structure TypEntry where
  typicalMinutes : ℝ
  master : UStat → ℝ

/-- The assist-merge policy of lines 880-891 / 973-986: for each assist
entry, if the player already has an adjustment, replace its `Assists`
multiplier when the assist one is strictly higher (re-tagging the source);
otherwise append the assist entry wholesale. -/
noncomputable def mergeStep (tag : String) (acc : List (String × Adjustment))
    (pa : String × Adjustment) : List (String × Adjustment) :=
  if (acc.map Prod.fst).contains pa.1 then
    acc.map (fun q =>
      if q.1 = pa.1 then
        (if ((pa.2.mult .uast).getD 1) > ((q.2.mult .uast).getD 1) then
          (q.1, ⟨fun s => if s = .uast then pa.2.mult .uast else q.2.mult s, tag⟩)
        else q)
      else q)
  else acc ++ [pa]

noncomputable def mergeAssist (adjustments assistAdj : List (String × Adjustment))
    (tag : String) : List (String × Adjustment) :=
  assistAdj.foldl (mergeStep tag) adjustments

/-- The per-stat generic multiplier (lines 946-957): only for stats with a
positive typical baseline, capped at the team ceiling. -/
noncomputable def genericMultOf (typ : Option TypEntry) (pool : UStat → ℝ)
    (share eff maxBoost : ℝ) (st : UStat) : Option ℝ :=
  match typ with
  | some te =>
    if te.master st > 0 then
      some (min (1 + pool st * share * eff / te.master st) maxBoost)
    else none
  | none => none

/-- Lines 959-965: the entry is kept only when some multiplier exceeds
1.05. -/
noncomputable def genericSelect (name : String) (mult : UStat → Option ℝ) :
    Option (String × Adjustment) :=
  if uStats.any (fun st => match mult st with
      | some m => decide (m > 1.05)
      | none => false) then
    some (name, ⟨mult, "generic"⟩)
  else none

/-- The generic-path entry for one projected player (lines 916-969). -/
noncomputable def genericEntry (typicalRoster : List (String × TypEntry))
    (pool : UStat → ℝ) (totalActive maxBoost : ℝ) (pr : String × ℝ) :
    Option (String × Adjustment) :=
  if pr.2 < 15 then none
  else
    let minuteShare := if totalActive > 0 then pr.2 / totalActive else 0
    let typ := (typicalRoster.find? (fun q => q.1 == pr.1)).map Prod.snd
    let extraBoost : ℝ :=
      match typ with
      | some te => if te.typicalMinutes > 0 then
          max 0 ((pr.2 - te.typicalMinutes) / te.typicalMinutes) else 0
      | none => 0
    let isReplacement : Bool :=
      match typ with
      | some te => decide (pr.2 > te.typicalMinutes + 5)
      | none => true
    let totalShare := minuteShare * 0.80 + extraBoost * 0.20
    let eff0 : ℝ := if isReplacement then 0.67 else 0.57
    let eff := if pr.2 ≥ 35 then eff0 * 1.05 else eff0
    genericSelect pr.1 (fun st => genericMultOf typ pool totalShare eff maxBoost st)

/-- Function `calculate_usage_adjustments` (lines 815-994). -/
noncomputable def calculateUsageAdjustments (teamCap : Option ℝ)
    (teamImpacts : Option (List (String × List (String × ImpactData))))
    (typicalRoster : List (String × TypEntry))
    (histPattern : List (String × ℝ)) (projected : List (String × ℝ)) :
    List (String × Adjustment) :=
  let maxBoost := teamCap.getD 1.40
  let assistAdj := calcAssistRedistribution teamImpacts projected
  if typicalRoster.isEmpty then []
  else
    let missing := typicalRoster.filter (fun q =>
      !(projNames projected).contains q.1 && decide (q.2.typicalMinutes ≥ 20))
    if missing.isEmpty then []
    else if !histPattern.isEmpty then
      let adjustments := histPattern.map (fun pm =>
        ((pm.1, ⟨fun _ => some (min pm.2 maxBoost), "historical_pattern"⟩) :
          String × Adjustment))
      mergeAssist adjustments assistAdj "assist_redistribution+historical"
    else
      let totalActive := (projected.map Prod.snd).sum
      let pool : UStat → ℝ := fun st => (missing.map (fun q => q.2.master st)).sum
      let adjustments := projected.filterMap
        (genericEntry typicalRoster pool totalActive maxBoost)
      mergeAssist adjustments assistAdj "assist_redistribution+generic"

/-! ### C8 — multiplier caps -/

/-- The clamp ceilings of the learned-impacts path actually called by
`calculate_usage_adjustments` (lines 645-656). -/
def learnedCap : UStat → ℝ
  | .upts => 1.13 | .ureb => 1.15 | .uast => 1.20
  | .ustl => 1 | .ublk => 1 | .utpm => 1.10

/-- The caps of the assist-override path quoted by the spec
(`_fallback_assist_redistribution`, lines 786-799): assists 1.50, points
1.35, rebounds 1.30, steals/blocks 1.20, threes 1.30. -/
def assistCap : UStat → ℝ
  | .upts => 1.35 | .ureb => 1.30 | .uast => 1.50
  | .ustl => 1.20 | .ublk => 1.20 | .utpm => 1.30

theorem learnedCap_le_assistCap : ∀ st, learnedCap st ≤ assistCap st := by
  intro st
  cases st <;> norm_num [learnedCap, assistCap]

/-- Every multiplier of a list of adjustment entries is within `bound`. -/
def cappedBy (bound : UStat → ℝ) (l : List (String × Adjustment)) : Prop :=
  ∀ pa ∈ l, ∀ st m, pa.2.mult st = some m → m ≤ bound st

theorem impactEntry_bounded (imp : ImpactData) :
    ∀ st m, (impactEntry imp).mult st = some m → m ≤ learnedCap st := by
  intro st m h
  cases st <;>
    (have he := Option.some.inj h; subst he) <;>
    first
      | exact max_le (by norm_num [learnedCap]) (min_le_left _ _)
      | norm_num [learnedCap]

theorem impactCombine_bounded (old : Adjustment) (imp : ImpactData)
    (hold : ∀ st m, old.mult st = some m → m ≤ learnedCap st) :
    ∀ st m, (impactCombine old imp).mult st = some m → m ≤ learnedCap st := by
  intro st m h
  cases st
  · exact (Option.some.inj h) ▸ max_le (by norm_num [learnedCap]) (min_le_left _ _)
  · exact (Option.some.inj h) ▸ max_le (by norm_num [learnedCap]) (min_le_left _ _)
  · exact (Option.some.inj h) ▸ max_le (by norm_num [learnedCap]) (min_le_left _ _)
  · exact hold .ustl m h
  · exact hold .ublk m h
  · exact hold .utpm m h

theorem processTeammate_bounded (projected : List (String × ℝ))
    (imp : ImpactData) (tm : String) (acc : List (String × Adjustment))
    (hacc : cappedBy learnedCap acc) :
    cappedBy learnedCap (processTeammate projected imp tm acc) := by
  unfold processTeammate
  split_ifs with h1 h2 h3
  · intro pa hpa
    rcases List.mem_map.mp hpa with ⟨q, hq, rfl⟩
    by_cases hq1 : q.1 = tm
    · simp only [hq1, if_true]
      exact impactCombine_bounded q.2 imp (hacc q hq)
    · simp only [hq1, if_false]
      exact hacc q hq
  · intro pa hpa
    rcases List.mem_append.mp hpa with hpa | hpa
    · exact hacc pa hpa
    · have : pa = (tm, impactEntry imp) := by simpa using hpa
      subst this
      exact impactEntry_bounded imp
  · exact hacc
  · exact hacc

theorem foldl_capped {β : Type*} (bound : UStat → ℝ)
    (f : List (String × Adjustment) → β → List (String × Adjustment))
    (hf : ∀ acc b, cappedBy bound acc → cappedBy bound (f acc b)) :
    ∀ (l : List β) (acc), cappedBy bound acc → cappedBy bound (l.foldl f acc) := by
  intro l
  induction l with
  | nil => intro acc h; exact h
  | cons b t ih => intro acc h; exact ih _ (hf acc b h)

theorem calcAssist_bounded
    (impacts : Option (List (String × List (String × ImpactData))))
    (projected : List (String × ℝ)) :
    cappedBy learnedCap (calcAssistRedistribution impacts projected) := by
  unfold calcAssistRedistribution
  cases impacts with
  | none => intro pa hpa; simp at hpa
  | some imps =>
    by_cases hemp : (imps.filter (fun st => !(projNames projected).contains st.1)).isEmpty
    · simp only [hemp, if_true]
      intro pa hpa; simp at hpa
    · simp only [hemp, if_false]
      refine foldl_capped learnedCap _ ?_ _ [] (by intro pa hpa; simp at hpa)
      intro acc st hacc
      exact foldl_capped learnedCap _
        (fun acc2 tm hacc2 => processTeammate_bounded projected tm.2 tm.1 acc2 hacc2)
        st.2 acc hacc

theorem assistEntry_bounded (assistBoost rebBoost am pm rm : ℝ)
    (ham : am ≤ 1.50) (hpm : pm ≤ 1.35) (hrm : rm ≤ 1.30) :
    ∀ st m, (assistEntry assistBoost rebBoost am pm rm).mult st = some m →
      m ≤ assistCap st := by
  intro st m h
  cases st <;> (have he := Option.some.inj h; subst he) <;>
    first
      | exact hpm
      | exact hrm
      | exact ham
      | exact min_le_right _ _

theorem fallbackSelect_bounded (name : String)
    (assistBoost rebBoost am pm rm : ℝ)
    (ham : am ≤ 1.50) (hpm : pm ≤ 1.35) (hrm : rm ≤ 1.30)
    (p : String) (adj : Adjustment)
    (h : fallbackSelect name assistBoost rebBoost am pm rm = some (p, adj)) :
    ∀ st m, adj.mult st = some m → m ≤ assistCap st := by
  unfold fallbackSelect at h
  split_ifs at h with hc
  injection Option.some.inj h with h1 h2
  subst h2
  exact assistEntry_bounded _ _ _ _ _ ham hpm hrm

theorem fallbackEntry_bounded (playerStats : List (String × FPStats))
    (playerAverages : String → Option (ℝ × ℝ × ℝ))
    (assistPool pointsPool rebPool totalActive : ℝ) (ip : ℕ × (String × ℝ))
    (p : String) (adj : Adjustment)
    (h : fallbackEntry playerStats playerAverages assistPool pointsPool rebPool
        totalActive ip = some (p, adj)) :
    ∀ st m, adj.mult st = some m → m ≤ assistCap st := by
  simp only [fallbackEntry] at h
  exact fallbackSelect_bounded _ _ _ _ _ _
    (min_le_right _ _) (min_le_right _ _) (min_le_right _ _) p adj h

theorem fallback_bounded (playerStats : List (String × FPStats))
    (projected : List (String × ℝ))
    (playerAverages : String → Option (ℝ × ℝ × ℝ)) :
    cappedBy assistCap
      (fallbackAssistRedistribution playerStats projected playerAverages) := by
  intro pa hpa
  simp only [fallbackAssistRedistribution] at hpa
  split_ifs at hpa with h1 h2
  · simp at hpa
  · simp at hpa
  · rcases List.mem_filterMap.mp hpa with ⟨ip, _, hg⟩
    exact fallbackEntry_bounded _ _ _ _ _ _ ip pa.1 pa.2 hg

theorem genericMultOf_bounded (typ : Option TypEntry) (pool : UStat → ℝ)
    (share eff maxBoost : ℝ) (st : UStat) (m : ℝ)
    (h : genericMultOf typ pool share eff maxBoost st = some m) : m ≤ maxBoost := by
  cases typ with
  | none => exact absurd h (by simp [genericMultOf])
  | some te =>
    simp only [genericMultOf] at h
    split_ifs at h with hb
    exact (Option.some.inj h) ▸ min_le_right _ _

theorem genericSelect_mult (name : String) (mult : UStat → Option ℝ)
    (p : String) (adj : Adjustment)
    (h : genericSelect name mult = some (p, adj)) : adj.mult = mult := by
  unfold genericSelect at h
  split_ifs at h with hc
  injection Option.some.inj h with hname hadj
  subst hadj
  rfl

theorem genericEntry_bounded (typicalRoster : List (String × TypEntry))
    (pool : UStat → ℝ) (totalActive maxBoost : ℝ) (pr : String × ℝ)
    (p : String) (adj : Adjustment)
    (h : genericEntry typicalRoster pool totalActive maxBoost pr = some (p, adj)) :
    ∀ st m, adj.mult st = some m → m ≤ maxBoost := by
  simp only [genericEntry] at h
  by_cases h15 : pr.2 < 15
  · rw [if_pos h15] at h
    exact absurd h (by simp)
  · rw [if_neg h15] at h
    have hmult := genericSelect_mult _ _ p adj h
    intro st m hm
    rw [hmult] at hm
    exact genericMultOf_bounded _ pool _ _ maxBoost st m hm

theorem mergeStep_bounded (bound : UStat → ℝ) (tag : String)
    (acc : List (String × Adjustment)) (pa : String × Adjustment)
    (hacc : cappedBy bound acc)
    (hpa : ∀ st m, pa.2.mult st = some m → m ≤ bound st) :
    cappedBy bound (mergeStep tag acc pa) := by
  unfold mergeStep
  split_ifs with h1
  · intro q' hq'
    rcases List.mem_map.mp hq' with ⟨q, hq, rfl⟩
    by_cases hq1 : q.1 = pa.1
    · simp only [hq1, if_true]
      split_ifs with hcmp
      · intro st m hm
        simp only at hm
        by_cases hst : st = .uast
        · rw [if_pos hst] at hm
          exact hst ▸ hpa .uast m (hst ▸ hm)
        · rw [if_neg hst] at hm
          exact hacc q hq st m hm
      · exact hacc q hq
    · simp only [hq1, if_false]
      exact hacc q hq
  · intro q hq
    rcases List.mem_append.mp hq with hq | hq
    · exact hacc q hq
    · have : q = pa := by simpa using hq
      subst this
      exact hpa

theorem mergeAssist_bounded (bound : UStat → ℝ) (tag : String) :
    ∀ (assistAdj adjustments : List (String × Adjustment)),
      cappedBy bound adjustments → cappedBy bound assistAdj →
      cappedBy bound (mergeAssist adjustments assistAdj tag) := by
  intro assistAdj
  induction assistAdj with
  | nil => intro adjustments h1 _; exact h1
  | cons pa t ih =>
    intro adjustments h1 h2
    have hstep : mergeAssist adjustments (pa :: t) tag
        = mergeAssist (mergeStep tag adjustments pa) t tag := rfl
    rw [hstep]
    exact ih _
      (mergeStep_bounded bound tag adjustments pa h1 (h2 pa (by simp)))
      (fun q hq => h2 q (List.mem_cons_of_mem _ hq))

/-- Claim C8. Every multiplier produced by the Usage Redistribution Engine
respects the cap of the path that produced it:
(1) the learned-impacts assist path that `calculate_usage_adjustments`
actually calls is clamped to its ETR ranges (≤ 1.13/1.15/1.20/1/1/1.10),
in particular within the spec's 1.35/1.30/1.50 assist-path caps;
(2) `_fallback_assist_redistribution` never exceeds 1.50 for assists,
1.35 for points, 1.30 for rebounds (1.20/1.20/1.30 for the derived stats);
(3) every multiplier in the final `calculate_usage_adjustments` output is
bounded by the team-specific ceiling (`team_caps.get(team, 1.40)`) or, for
an assist value merged in from the assist path, by that path's cap. -/
theorem usage_multiplier_caps :
    (∀ impacts projected, ∀ pa ∈ calcAssistRedistribution impacts projected,
        ∀ st m, pa.2.mult st = some m → m ≤ learnedCap st ∧ m ≤ assistCap st)
    ∧ (∀ playerStats projected avgs,
        ∀ pa ∈ fallbackAssistRedistribution playerStats projected avgs,
        ∀ st m, pa.2.mult st = some m → m ≤ assistCap st)
    ∧ (∀ (teamCap : Option ℝ) impacts roster pattern projected,
        ∀ pa ∈ calculateUsageAdjustments teamCap impacts roster pattern projected,
        ∀ st m, pa.2.mult st = some m →
          m ≤ max (teamCap.getD 1.40) (assistCap st)) := by
  refine ⟨?_, ?_, ?_⟩
  · intro impacts projected pa hpa st m hm
    have h := calcAssist_bounded impacts projected pa hpa st m hm
    exact ⟨h, le_trans h (learnedCap_le_assistCap st)⟩
  · intro playerStats projected avgs pa hpa st m hm
    exact fallback_bounded playerStats projected avgs pa hpa st m hm
  · intro teamCap impacts roster pattern projected pa hpa st m hm
    have hassist : cappedBy (fun st => max (teamCap.getD 1.40) (assistCap st))
        (calcAssistRedistribution impacts projected) := by
      intro q hq st' m' hm'
      exact le_trans
        (le_trans (calcAssist_bounded impacts projected q hq st' m' hm')
          (learnedCap_le_assistCap st'))
        (le_max_right _ _)
    simp only [calculateUsageAdjustments] at hpa
    split_ifs at hpa with h1 h2 h3
    · simp at hpa
    · simp at hpa
    · -- historical-pattern branch
      refine mergeAssist_bounded _ _ _ _ ?_ hassist pa hpa st m hm
      intro q hq st' m' hm'
      rcases List.mem_map.mp hq with ⟨pm, _, rfl⟩
      simp only at hm'
      exact le_trans ((Option.some.inj hm') ▸ min_le_right _ _) (le_max_left _ _)
    · -- generic branch
      refine mergeAssist_bounded _ _ _ _ ?_ hassist pa hpa st m hm
      intro q hq st' m' hm'
      rcases List.mem_filterMap.mp hq with ⟨pr, _, hg⟩
      exact le_trans
        (genericEntry_bounded _ _ _ _ pr q.1 q.2 hg st' m' hm')
        (le_max_left _ _)

/-- Witness for C8: a slate where star "A" (25 typical minutes) is out,
the pattern matcher proposes multiplier 2 for "B", and the cap clamps it
to the default team ceiling 1.40. -/
theorem usage_multiplier_caps_witness :
    min (2 : ℝ) ((none : Option ℝ).getD 1.40)
      ≤ max ((none : Option ℝ).getD 1.40) (assistCap .upts) := by
  refine usage_multiplier_caps.2.2 none none [("A", ⟨25, fun _ => 0⟩)] [("B", 2)]
    [("B", 20)]
    ("B", ⟨fun _ => some (min (2 : ℝ) ((none : Option ℝ).getD 1.40)),
      "historical_pattern"⟩)
    ?_ .upts _ rfl
  have h25 : (decide ((25 : ℝ) ≥ 20)) = true := decide_eq_true (by norm_num)
  simp [calculateUsageAdjustments, calcAssistRedistribution, mergeAssist,
    projNames, h25]

/-! ### Ingestion validation (`daily_api._canonicalize_cols`,
`daily_api.upload_and_retrain`) -/

/-- The alias table `REQ` of `daily_api.py` (lines 29-42), in insertion
order. -/
def reqAliases : List (String × List String) :=
  [("Player", ["player", "name"]),
   ("Team", ["team"]),
   ("Opp", ["opp", "opponent"]),
   ("Minutes", ["minutes", "min", "mins"]),
   ("PTS", ["pts", "points"]),
   ("REB", ["reb", "rebs"]),
   ("AST", ["ast", "assists"]),
   ("3PM", ["3pm", "three_pm", "3pt_made", "3pt"]),
   ("STL", ["stl", "steals"]),
   ("BLK", ["blk", "blocks"]),
   ("TO", ["to", "tov", "turnovers"]),
   ("PRA", ["pra"])]

def statColNames : List String := ["PTS", "REB", "AST", "3PM", "STL", "BLK", "TO", "PRA"]

/-- Case-insensitive column-name comparison (`c.lower()`). -/
def lowerEq (a b : String) : Bool :=
  a.toList.map Char.toLower == b.toList.map Char.toLower

/-- An uploaded CSV: a header and rows of possibly-missing string cells,
positionally aligned with the header. -/
structure RawFrame where
  header : List String
  rows : List (List (Option String))

/-- The alias search of lines 50-54: the first name of `[canon]+aliases`
whose lowercase appears among the (lowercased) columns; the dict
`{c.lower(): c}` keeps the last column with a given lowercase, hence the
reversed search. -/
def findCol (header : List String) (canon : String) (aliases : List String) :
    Option String :=
  ([canon] ++ aliases).findSome? (fun a => header.reverse.find? (fun c => lowerEq c a))

/-- Lines 49-60: build `colmap`, raising (for the whole frame) when a
required column (`Player`, `Team`, `Opp`) has no alias present and simply
skipping absent optional columns. -/
def buildColmap : List (String × List String) → List String →
    Except String (List (String × String))
  | [], _ => .ok []
  | (canon, aliases) :: rest, header =>
    match findCol header canon aliases with
    | some found =>
      match buildColmap rest header with
      | .ok m => .ok ((found, canon) :: m)
      | .error e => .error e
    | none =>
      if canon = "Player" ∨ canon = "Team" ∨ canon = "Opp" then
        .error ("Missing required column: " ++ canon)
      else buildColmap rest header

def renameHeader (colmap : List (String × String)) (header : List String) :
    List String :=
  header.map (fun c => ((colmap.find? (fun kv => kv.1 == c)).map Prod.snd).getD c)

/-- Transform `astype(str).str.strip()`: a missing cell becomes the string `"nan"`,
and whitespace is stripped — the row is NOT dropped. -/
def stripCell (c : Option String) : Option String :=
  some (String.mk
    ((((c.getD "nan").toList.dropWhile Char.isWhitespace).reverse.dropWhile
      Char.isWhitespace).reverse))

/-- Function `daily_api._canonicalize_cols` (lines 46-68): resolve aliases (whole
frame fails on a missing required column), add absent stat columns as
`NA`, and strip the `Player`/`Team`/`Opp` cells.  There is no row-level
validation: every row of a frame that passes the column check is kept. -/
def canonicalizeCols (f : RawFrame) : Except String RawFrame :=
  match buildColmap reqAliases f.header with
  | .error e => .error e
  | .ok colmap =>
    let newHeader := renameHeader colmap f.header
    let missingStats := statColNames.filter (fun s => !newHeader.contains s)
    let fixRow : List (Option String) → List (Option String) := fun row =>
      ((newHeader.zip row).map (fun hc =>
        if hc.1 == "Player" || hc.1 == "Team" || hc.1 == "Opp" then stripCell hc.2
        else hc.2))
      ++ missingStats.map (fun _ => (none : Option String))
    .ok ⟨newHeader ++ missingStats, f.rows.map fixRow⟩

theorem buildColmap_cons (canon : String) (aliases : List String)
    (rest : List (String × List String)) (header : List String) :
    buildColmap ((canon, aliases) :: rest) header
      = (match findCol header canon aliases with
        | some found =>
          (match buildColmap rest header with
          | Except.ok m => Except.ok ((found, canon) :: m)
          | Except.error e => Except.error e)
        | none =>
          if canon = "Player" ∨ canon = "Team" ∨ canon = "Opp" then
            Except.error ("Missing required column: " ++ canon)
          else buildColmap rest header) := rfl

theorem buildColmap_ok_of_required (req : List (String × List String))
    (header : List String)
    (hreq : ∀ canon aliases, (canon, aliases) ∈ req →
      (canon = "Player" ∨ canon = "Team" ∨ canon = "Opp") →
      (findCol header canon aliases).isSome) :
    ∃ m, buildColmap req header = .ok m := by
  induction req with
  | nil => exact ⟨[], rfl⟩
  | cons ca rest ih =>
    rcases ca with ⟨canon, aliases⟩
    have ihr := ih (fun c a hm hr => hreq c a (List.mem_cons_of_mem _ hm) hr)
    rcases ihr with ⟨m, hm⟩
    rcases hfind : findCol header canon aliases with _ | found
    · by_cases hr : canon = "Player" ∨ canon = "Team" ∨ canon = "Opp"
      · have := hreq canon aliases (by simp) hr
        rw [hfind] at this
        simp at this
      · refine ⟨m, ?_⟩
        rw [buildColmap_cons, hfind]
        simp only [if_neg hr]
        exact hm
    · refine ⟨(found, canon) :: m, ?_⟩
      rw [buildColmap_cons, hfind, hm]

theorem buildColmap_error_of_missing (req : List (String × List String))
    (header : List String)
    (hmiss : ∃ ca ∈ req, (ca.1 = "Player" ∨ ca.1 = "Team" ∨ ca.1 = "Opp")
      ∧ findCol header ca.1 ca.2 = none) :
    ∃ e, buildColmap req header = .error e := by
  induction req with
  | nil => rcases hmiss with ⟨ca, hca, _⟩; simp at hca
  | cons ca rest ih =>
    rcases ca with ⟨canon, aliases⟩
    rcases hfind : findCol header canon aliases with _ | found
    · by_cases hr : canon = "Player" ∨ canon = "Team" ∨ canon = "Opp"
      · refine ⟨"Missing required column: " ++ canon, ?_⟩
        rw [buildColmap_cons, hfind]
        simp only [if_pos hr]
      · have hrest : ∃ ca ∈ rest, (ca.1 = "Player" ∨ ca.1 = "Team" ∨ ca.1 = "Opp")
            ∧ findCol header ca.1 ca.2 = none := by
          rcases hmiss with ⟨cb, hcb, hb1, hb2⟩
          rcases List.mem_cons.mp hcb with rfl | hcb
          · exact absurd hb1 hr
          · exact ⟨cb, hcb, hb1, hb2⟩
        rcases ih hrest with ⟨e, he⟩
        refine ⟨e, ?_⟩
        rw [buildColmap_cons, hfind]
        simp only [if_neg hr]
        exact he
    · have hrest : ∃ ca ∈ rest, (ca.1 = "Player" ∨ ca.1 = "Team" ∨ ca.1 = "Opp")
          ∧ findCol header ca.1 ca.2 = none := by
        rcases hmiss with ⟨cb, hcb, hb1, hb2⟩
        rcases List.mem_cons.mp hcb with rfl | hcb
        · rw [hfind] at hb2; exact absurd hb2 (by simp)
        · exact ⟨cb, hcb, hb1, hb2⟩
      rcases ih hrest with ⟨e, he⟩
      refine ⟨e, ?_⟩
      rw [buildColmap_cons, hfind, he]

/-- Claim C9, counterexample. (a) A batch whose header lacks any `Opp`
alias fails AS A WHOLE with `Missing required column: Opp`, even though it
contains a perfectly valid row — contradicting "a missing field is never
raised as a hard failure for the whole batch".  (b) A batch whose header
is complete but where one row's `Opp` cell is missing is merged with BOTH
rows kept — the defective row is not dropped and no rejected-row count
exists (the upload response carries only `rows_uploaded`/`history_rows`). -/
theorem canonicalize_counterexample :
    canonicalizeCols ⟨["Player", "Team", "Minutes", "PTS"],
        [[some "A", some "T", some "30", some "10"]]⟩
      = .error "Missing required column: Opp"
    ∧ ((canonicalizeCols ⟨["Player", "Team", "Opp", "Minutes"],
        [[some "A", some "T", some "X", some "30"],
         [some "B", some "T", none, some "30"]]⟩).toOption.map
        (fun g => g.rows.length)) = some 2 := by
  constructor
  · rfl
  · rfl

/-- Claim C9, amended. The module `daily_api` validates only COLUMNS, never rows: when
the header resolves `Player`, `Team` and `Opp`, the whole batch is
accepted with every row kept (rows with missing field values included, so
nothing is dropped and there is no rejected count to report); when any of
those three columns is missing, the whole batch fails with an error
(surfaced by `upload_and_retrain` as a failed upload), `Minutes` not being
required at all. -/
theorem canonicalize_no_row_validation (f : RawFrame) :
    ((findCol f.header "Player" ["player", "name"]).isSome
        ∧ (findCol f.header "Team" ["team"]).isSome
        ∧ (findCol f.header "Opp" ["opp", "opponent"]).isSome →
      ∃ g, canonicalizeCols f = .ok g ∧ g.rows.length = f.rows.length)
    ∧ (¬ ((findCol f.header "Player" ["player", "name"]).isSome
        ∧ (findCol f.header "Team" ["team"]).isSome
        ∧ (findCol f.header "Opp" ["opp", "opponent"]).isSome) →
      ∃ e, canonicalizeCols f = .error e) := by
  constructor
  · intro hreq3
    have hall : ∀ canon aliases, (canon, aliases) ∈ reqAliases →
        (canon = "Player" ∨ canon = "Team" ∨ canon = "Opp") →
        (findCol f.header canon aliases).isSome := by
      intro canon aliases hmem hr
      simp [reqAliases] at hmem
      rcases hmem with ⟨hc, ha⟩ | ⟨hc, ha⟩ | ⟨hc, ha⟩ | ⟨hc, ha⟩ | ⟨hc, ha⟩ |
          ⟨hc, ha⟩ | ⟨hc, ha⟩ | ⟨hc, ha⟩ | ⟨hc, ha⟩ | ⟨hc, ha⟩ | ⟨hc, ha⟩ | ⟨hc, ha⟩ <;>
        (subst hc; subst ha) <;>
        first
          | exact hreq3.1
          | exact hreq3.2.1
          | exact hreq3.2.2
          | (exfalso; rcases hr with h | h | h <;> simp at h)
    obtain ⟨m, hm⟩ := buildColmap_ok_of_required reqAliases f.header hall
    simp only [canonicalizeCols, hm]
    exact ⟨_, rfl, by simp⟩
  · intro hnot
    have hmiss : ∃ ca ∈ reqAliases,
        (ca.1 = "Player" ∨ ca.1 = "Team" ∨ ca.1 = "Opp")
        ∧ findCol f.header ca.1 ca.2 = none := by
      by_cases h1 : (findCol f.header "Player" ["player", "name"]).isSome
      · by_cases h2 : (findCol f.header "Team" ["team"]).isSome
        · by_cases h3 : (findCol f.header "Opp" ["opp", "opponent"]).isSome
          · exact absurd ⟨h1, h2, h3⟩ hnot
          · exact ⟨("Opp", ["opp", "opponent"]), by simp [reqAliases], by simp,
              Option.not_isSome_iff_eq_none.mp h3⟩
        · exact ⟨("Team", ["team"]), by simp [reqAliases], by simp,
            Option.not_isSome_iff_eq_none.mp h2⟩
      · exact ⟨("Player", ["player", "name"]), by simp [reqAliases], by simp,
          Option.not_isSome_iff_eq_none.mp h1⟩
    obtain ⟨e, he⟩ := buildColmap_error_of_missing reqAliases f.header hmiss
    simp only [canonicalizeCols, he]
    exact ⟨e, rfl⟩

/-- Witness for the amended C9 at a complete three-column frame. -/
theorem canonicalize_no_row_validation_witness :
    ∃ g, canonicalizeCols ⟨["Player", "Team", "Opp"],
        [[some "A", some "T", some "X"]]⟩ = .ok g ∧ g.rows.length = 1 :=
  (canonicalize_no_row_validation
      ⟨["Player", "Team", "Opp"], [[some "A", some "T", some "X"]]⟩).1
    (by decide)

/-! ### Date parsing (`daily_api._parse_date_str`)

`strptime` per CPython's `_strptime` regexes: `%Y` is exactly four digits,
`%m` is `1[0-2]|0[1-9]|[1-9]`, `%d` is `3[01]|[12]\d|0[1-9]|[1-9]`, the
whole string must be consumed, and `datetime()` then checks the calendar
(day within month, year ≥ 1).  The form field is modelled as its character
list. -/

def splitOnChar (sep : Char) : List Char → List (List Char)
  | [] => [[]]
  | c :: rest =>
    let r := splitOnChar sep rest
    if c = sep then [] :: r
    else
      match r with
      | g :: gs => (c :: g) :: gs
      | [] => [[c]]

def digitsToNat (l : List Char) : ℕ :=
  l.foldl (fun n c => 10 * n + (c.toNat - 48)) 0

/-- Fields `%m` / `%d`: one or two digits in `[lo, hi]` (so `"00"` and `"012"`
are rejected, `"7"` and `"07"` accepted). -/
def parseField2 (lo hi : ℕ) (l : List Char) : Option ℕ :=
  if l.all Char.isDigit ∧ (l.length = 1 ∨ l.length = 2) then
    if lo ≤ digitsToNat l ∧ digitsToNat l ≤ hi then some (digitsToNat l) else none
  else none

/-- Field `%Y`: exactly four digits. -/
def parseYear4 (l : List Char) : Option ℕ :=
  if l.all Char.isDigit ∧ l.length = 4 then some (digitsToNat l) else none

/-- A calendar date `(year, month, day)`. -/
structure YMD where
  y : ℕ
  m : ℕ
  d : ℕ
deriving DecidableEq

def isLeap (y : ℕ) : Bool :=
  (y % 4 = 0 && !(y % 100 = 0)) || y % 400 = 0

def daysInMonth (y m : ℕ) : ℕ :=
  if m = 2 then (if isLeap y then 29 else 28)
  else if m = 4 ∨ m = 6 ∨ m = 9 ∨ m = 11 then 30
  else 31

/-- Format `"%Y<sep>%m<sep>%d"`. -/
def parseYMD (sep : Char) (s : List Char) : Option YMD :=
  match splitOnChar sep s with
  | [ys, ms, ds] =>
    match parseYear4 ys, parseField2 1 12 ms, parseField2 1 31 ds with
    | some y, some m, some d =>
      if 1 ≤ y ∧ d ≤ daysInMonth y m then some ⟨y, m, d⟩ else none
    | _, _, _ => none
  | _ => none

/-- Format `"%m<sep>%d<sep>%Y"`. -/
def parseMDY (sep : Char) (s : List Char) : Option YMD :=
  match splitOnChar sep s with
  | [ms, ds, ys] =>
    match parseYear4 ys, parseField2 1 12 ms, parseField2 1 31 ds with
    | some y, some m, some d =>
      if 1 ≤ y ∧ d ≤ daysInMonth y m then some ⟨y, m, d⟩ else none
    | _, _, _ => none
  | _ => none

/-- Function `daily_api._parse_date_str` (lines 70-76): try `%Y-%m-%d`, `%m/%d/%Y`,
`%m-%d-%Y`, `%Y/%m/%d` in order, swallowing every parse failure, and fall
back to `datetime.now()` (the current calendar date, passed here as
`today`). -/
def parseDateStr (s : List Char) (today : YMD) : YMD :=
  ((parseYMD '-' s).orElse (fun _ =>
    (parseMDY '/' s).orElse (fun _ =>
      (parseMDY '-' s).orElse (fun _ =>
        parseYMD '/' s)))).getD today

/-- Claim C10. When the upload's date string matches none of the four
accepted formats, `_parse_date_str` never fails: it returns the current
calendar date, and `_append_history` then stamps exactly that date onto
every stored row of the batch. -/
theorem parse_date_fallback (s : List Char) (today : YMD)
    (h : parseYMD '-' s = none ∧ parseMDY '/' s = none
      ∧ parseMDY '-' s = none ∧ parseYMD '/' s = none) :
    parseDateStr s today = today
    ∧ (∀ (rows : List HRow) (d : ℤ), ∀ r ∈ stampDate d rows, r.date = d) := by
  constructor
  · unfold parseDateStr
    rw [h.1, h.2.1, h.2.2.1, h.2.2.2]
    rfl
  · intro rows d r hr
    rcases List.mem_map.mp hr with ⟨r0, _, rfl⟩
    rfl

/-- Witness for C10 at the unparseable string `"hello"` and today
2026-10-12. -/
theorem parse_date_fallback_witness :
    parseDateStr ['h', 'e', 'l', 'l', 'o'] ⟨2026, 10, 12⟩ = ⟨2026, 10, 12⟩ :=
  (parse_date_fallback ['h', 'e', 'l', 'l', 'o'] ⟨2026, 10, 12⟩
    (by refine ⟨?_, ?_, ?_, ?_⟩ <;> decide)).1

end ETR
